import Mathlib

/-!
The cpuidle test driver: a verification development.

A shallow embedding of `drivers/cpuidle/cpuidle-test.c` and theorems about it.

Conventions of the embedding

* C strings are `List Char` (the bytes before the terminating NUL).
* C arrays are lists of their declared length; an access outside the array is
  a `Fault`, so every function that indexes an array returns `Except Fault _`.
* `unsigned int` values are `Nat`; where a `long` is stored into an
  `unsigned int` field the reduction modulo `2 ^ 32` is written out.
* A function pointer that is either `NULL` or `idle_loop` is a `Bool`
  (`true` for `idle_loop`).
* Results of kernel services outside this file (registration, allocation,
  hotplug subscription, the clock) are explicit arguments.
-/

namespace CpuidleTest

/-! ## Constants -/

/-- `#define CPUIDLE_STATE_MAX 10`. -/
def CPUIDLE_STATE_MAX : Nat := 10

/-- `#define MAX_PARAM_LENGTH 100`. -/
def MAX_PARAM_LENGTH : Nat := 100

/-- Modelled from the spec: the bound of a descriptor's name field
("name (bounded string ...)"), `CPUIDLE_NAME_LEN` of `linux/cpuidle.h`, which is
not among the sources: 16 bytes, terminator included. -/
def CPUIDLE_NAME_LEN : Nat := 16

/-- `EIO` of the kernel's errno table. -/
def EIO : Int := 5

/-- `ENOMEM` of the kernel's errno table. -/
def ENOMEM : Int := 12

/-! ## Data model -/

/-- What goes wrong when the C code leaves the objects it owns. -/
inductive Fault where
  /-- a read or write of `cpuidle_state_table[i]` / `cpuidle_states[i]` with `i`
  outside the array -/
  | table_index (i : Nat)
  /-- a write of `drv->states[i]` with `i` outside the array -/
  | driver_index (i : Nat)
  /-- `strcpy` of a string of `len` characters (plus terminator) into a
  descriptor's name field, which it does not fit -/
  | name_overflow (index len : Nat)
  /-- the iteration bound of the embedding was exhausted (never happens with
  the bounds the callers pass, see `strsep_loop_eq_apply_fields`) -/
  | fuel
  deriving DecidableEq, Repr

deriving instance DecidableEq for Except

/-- Modelled from the spec: `struct cpuidle_state` of `linux/cpuidle.h`, not among the
sources, restricted to the members this file touches: "name (bounded string),
exit_latency, target_residency, enabled (true iff an entry routine is
attached)". `enter` is `true` for `idle_loop` and `false` for `NULL`. -/
structure cpuidle_state where
  name : List Char
  exit_latency : Nat
  target_residency : Nat
  enter : Bool
  deriving DecidableEq, Repr

/-- Modelled from the spec: `struct cpuidle_driver` of `linux/cpuidle.h`, not among the
sources, restricted to the members this file touches: "a bounded, ordered
sequence of enabled StateDescriptors ... plus state_count". `states` is the
array `states[CPUIDLE_STATE_MAX]`. -/
structure cpuidle_driver where
  states : List cpuidle_state
  state_count : Nat
  deriving DecidableEq, Repr

/-- A zero-filled `struct cpuidle_state` (static storage). -/
def zero_state : cpuidle_state :=
  { name := [], exit_latency := 0, target_residency := 0, enter := false }

/-- The static `test_cpuidle_driver`: every member but `name` and `owner` is
zero. -/
def test_cpuidle_driver : cpuidle_driver :=
  { states := List.replicate CPUIDLE_STATE_MAX zero_state, state_count := 0 }

/-- The built-in snooze descriptor, element 0 of `cpuidle_states`. -/
def snooze_state : cpuidle_state :=
  { name := "snooze".toList, exit_latency := 0, target_residency := 0, enter := true }

/-- The initialiser of `static struct cpuidle_state cpuidle_states[CPUIDLE_STATE_MAX]`:
element 0 is given, the other nine are zero-filled. -/
def cpuidle_states : List cpuidle_state :=
  snooze_state :: List.replicate (CPUIDLE_STATE_MAX - 1) zero_state

/-- The array `cpuidle_states_ppc[]` (four elements). -/
def cpuidle_states_ppc : List cpuidle_state :=
  [ { name := "snooze".toList, exit_latency := 0, target_residency := 0, enter := true },
    { name := "stop0".toList, exit_latency := 2, target_residency := 20, enter := true },
    { name := "stop1".toList, exit_latency := 5, target_residency := 50, enter := true },
    { name := "stop2".toList, exit_latency := 10, target_residency := 100, enter := true } ]

/-- The array `cpuidle_states_intel[]` (four elements). -/
def cpuidle_states_intel : List cpuidle_state :=
  [ { name := "poll".toList, exit_latency := 0, target_residency := 0, enter := true },
    { name := "c1".toList, exit_latency := 2, target_residency := 2, enter := true },
    { name := "c1e".toList, exit_latency := 10, target_residency := 20, enter := true },
    { name := "c3".toList, exit_latency := 80, target_residency := 211, enter := true } ]

/-! ## `cpuidle_driver_init` -/

/-- The `for` loop of `cpuidle_driver_init`, `remaining = nr_states - idle_state`
iterations before the exit test fails. Reading `cpuidle_state_table[idle_state]`
outside the table and writing `drv->states[drv->state_count]` outside the
driver's array are faults. -/
def cpuidle_driver_init_loop (cpuidle_state_table : List cpuidle_state) :
    Nat → Nat → cpuidle_driver → Except Fault cpuidle_driver
  | 0, _, drv => .ok drv
  | remaining + 1, idle_state, drv =>
    match cpuidle_state_table[idle_state]? with
    | none => .error (Fault.table_index idle_state)
    | some st =>
      if st.enter = false then
        cpuidle_driver_init_loop cpuidle_state_table remaining (idle_state + 1) drv
      else if drv.state_count < drv.states.length then
        cpuidle_driver_init_loop cpuidle_state_table remaining (idle_state + 1)
          { states := drv.states.set drv.state_count st,
            state_count := drv.state_count + 1 }
      else .error (Fault.driver_index drv.state_count)

/-- `cpuidle_driver_init()`, on the globals `nr_states`, `cpuidle_state_table` and
`test_cpuidle_driver` (passed in and returned). Its C return value is always 0. -/
def cpuidle_driver_init (nr_states : Nat) (cpuidle_state_table : List cpuidle_state)
    (drv : cpuidle_driver) : Except Fault cpuidle_driver :=
  cpuidle_driver_init_loop cpuidle_state_table nr_states 0 { drv with state_count := 0 }

/-! ## String helpers of the kernel library -/

/-- The delimiter scan of `strsep(&s, ",")` on a non-NULL `s`: the token before the
first comma, and what `s` becomes: the text after that comma, or `NULL` (`none`)
when there is no comma. -/
def strsep_scan : List Char → List Char × Option (List Char)
  | [] => ([], none)
  | c :: cs =>
    if c = ',' then ([], some cs)
    else ((c :: (strsep_scan cs).1), (strsep_scan cs).2)

/-- `strsep(&stringp, ",")`: the returned token (`none` for `NULL`) and the new
value of `stringp`. -/
def strsep : Option (List Char) → Option (List Char) × Option (List Char)
  | none => (none, none)
  | some s => (some (strsep_scan s).1, (strsep_scan s).2)

/-- `strnlen(s, maxlen)`. -/
def strnlen (s : List Char) (maxlen : Nat) : Nat := min s.length maxlen

/-- Modelled from the spec: `_kstrtoull` of `lib/kstrtox.c`, not among the sources,
for base 10 ("parse as integers"): one or more decimal digits, optionally
followed by one newline, and nothing else; the value must fit 64 bits. -/
def _kstrtoull (s : List Char) : Option Nat :=
  let digits := s.takeWhile Char.isDigit
  let rest := s.dropWhile Char.isDigit
  if digits = [] then none
  else if rest ≠ [] ∧ rest ≠ [Char.ofNat 10] then none
  else
    let v := digits.foldl (fun acc c => acc * 10 + (c.toNat - 48)) 0
    if v < 2 ^ 64 then some v else none

/-- Modelled from the spec: `kstrtol(s, 10, &res)` of `lib/kstrtox.c`, not among the
sources, with a 64-bit `long`. `some v`: it returns 0 and stores `v` in `*res`;
`none`: the field "fails to parse", it returns `-EINVAL` or `-ERANGE` and does
not write `*res`. An optional sign precedes the digits. -/
def kstrtol (s : List Char) : Option Int :=
  match s with
  | '-' :: t =>
    match _kstrtoull t with
    | some v => if v ≤ 2 ^ 63 then some (-(v : Int)) else none
    | none => none
  | '+' :: t =>
    match _kstrtoull t with
    | some v => if v < 2 ^ 63 then some (v : Int) else none
    | none => none
  | _ =>
    match _kstrtoull s with
    | some v => if v < 2 ^ 63 then some (v : Int) else none
    | none => none

/-- Conversion of a `long` to the `unsigned int` of a descriptor's
`exit_latency` / `target_residency` member. -/
def long_to_uint (temp : Int) : Nat := (temp % 2 ^ 32).toNat

/-! ## `add_cpuidle_states` -/

/-- The shape shared by the three parsing loops of `add_cpuidle_states`:
`while ((this_param = strsep(&input, ",")) && index <= nr_states) { body; index++; }`.
`strsep` is called before the index test, as in the source. `fuel` bounds the
number of evaluations of the loop condition. -/
def strsep_loop {σ : Type} (nr_states : Nat)
    (body : Nat → List Char → σ → Except Fault σ) :
    Nat → Option (List Char) → Nat → σ → Except Fault σ
  | 0, _, _, _ => .error Fault.fuel
  | fuel + 1, input, index, st =>
    match strsep input with
    | (none, _) => .ok st
    | (some this_param, input') =>
      if index ≤ nr_states then
        match body index this_param st with
        | .error e => .error e
        | .ok st' => strsep_loop nr_states body fuel input' (index + 1) st'
      else .ok st

/-- The body of the name loop: `strcpy(cpuidle_states[index].name, this_param);
cpuidle_states[index].enter = idle_loop;`. -/
def name_body (index : Nat) (this_param : List Char)
    (tbl : List cpuidle_state) : Except Fault (List cpuidle_state) :=
  match tbl[index]? with
  | none => .error (Fault.table_index index)
  | some st =>
    if this_param.length + 1 ≤ CPUIDLE_NAME_LEN then
      .ok (tbl.set index { st with name := this_param, enter := true })
    else .error (Fault.name_overflow index this_param.length)

/-- The body of the residency loop: `rc = kstrtol(this_param, 10, &temp);
cpuidle_states[index].target_residency = temp;`. The state is the table and the
local `temp`; `rc` is never read. -/
def residency_body (index : Nat) (this_param : List Char)
    (st : List cpuidle_state × Int) : Except Fault (List cpuidle_state × Int) :=
  let temp : Int := match kstrtol this_param with
    | some v => v
    | none => st.2
  match st.1[index]? with
  | none => .error (Fault.table_index index)
  | some d => .ok (st.1.set index { d with target_residency := long_to_uint temp }, temp)

/-- The body of the latency loop: `rc = kstrtol(this_param, 10, &temp);
cpuidle_states[index].exit_latency = temp;`. -/
def latency_body (index : Nat) (this_param : List Char)
    (st : List cpuidle_state × Int) : Except Fault (List cpuidle_state × Int) :=
  let temp : Int := match kstrtol this_param with
    | some v => v
    | none => st.2
  match st.1[index]? with
  | none => .error (Fault.table_index index)
  | some d => .ok (st.1.set index { d with exit_latency := long_to_uint temp }, temp)

/-- What `add_cpuidle_states` leaves behind: the contents of the custom array
`cpuidle_states`, the array `cpuidle_state_table` points to, and the return
value. -/
structure add_result where
  states : List cpuidle_state
  cpuidle_state_table : List cpuidle_state
  ret : Int
  deriving DecidableEq, Repr

/-- Conversion of an `unsigned int` to `int` (`return nr_states;`). -/
def uint_to_int (n : Nat) : Int :=
  if n % 2 ^ 32 < 2 ^ 31 then ((n % 2 ^ 32 : Nat) : Int) else ((n % 2 ^ 32 : Nat) : Int) - 2 ^ 32

/-- `add_cpuidle_states()`, on the module parameters `nr_states`, `sim_type`,
`name`, `latency_us`, `residency_us`, the value `temp` of the uninitialised
local `long temp`, and the contents `tbl` of the custom array `cpuidle_states`. -/
def add_cpuidle_states (nr_states sim_type : Nat) (name latency_us residency_us : List Char)
    (temp : Int) (tbl : List cpuidle_state) : Except Fault add_result :=
  if sim_type = 1 then
    .ok { states := tbl, cpuidle_state_table := cpuidle_states_ppc, ret := 0 }
  else if sim_type = 2 then
    .ok { states := tbl, cpuidle_state_table := cpuidle_states_intel, ret := 0 }
  else
    -- `case 3` and `default` (after the warning) both leave the switch
    match (if strnlen name MAX_PARAM_LENGTH ≠ 0 then
        strsep_loop nr_states name_body (name.length + 2) (some name) 1 tbl
      else .ok tbl) with
    | .error e => .error e
    | .ok tbl1 =>
      match (if strnlen residency_us MAX_PARAM_LENGTH ≠ 0 then
          strsep_loop nr_states residency_body (residency_us.length + 2)
            (some residency_us) 1 (tbl1, temp)
        else .ok (tbl1, temp)) with
      | .error e => .error e
      | .ok st2 =>
        match (if strnlen latency_us MAX_PARAM_LENGTH ≠ 0 then
            strsep_loop nr_states latency_body (latency_us.length + 2)
              (some latency_us) 1 st2
          else .ok st2) with
        | .error e => .error e
        | .ok st3 =>
          .ok { states := st3.1, cpuidle_state_table := st3.1, ret := uint_to_int nr_states }

/-- The first two steps of `test_cpuidle_init`: `add_cpuidle_states();
cpuidle_driver_init();` (both return values are dropped there). The result
is the custom array and the driver. -/
def build_driver (nr_states sim_type : Nat) (name latency_us residency_us : List Char)
    (temp : Int) (tbl : List cpuidle_state) (drv : cpuidle_driver) :
    Except Fault (List cpuidle_state × cpuidle_driver) :=
  match add_cpuidle_states nr_states sim_type name latency_us residency_us temp tbl with
  | .error e => .error e
  | .ok r =>
    match cpuidle_driver_init nr_states r.cpuidle_state_table drv with
    | .error e => .error e
    | .ok drv' => .ok (r.states, drv')

/-! ## Per-core devices: `cpuidle_cpu_online`, `cpuidle_cpu_dead` -/

/-- Modelled from the spec: `struct cpuidle_device` of `linux/cpuidle.h`, not among the
sources, restricted to the members this file touches: "Attributes: core id,
registered (bool)". -/
structure cpuidle_device where
  registered : Bool
  cpu : Nat
  deriving DecidableEq, Repr

/-- A call this file makes into the idle framework on the per-core device of
core `cpu`, with the device as it is when the call is made and, for a
registration, the value the call returns. -/
inductive device_call where
  | cpuidle_register_device (cpu : Nat) (dev : cpuidle_device) (ret : Int)
  | cpuidle_unregister_device (cpu : Nat) (dev : cpuidle_device)
  deriving DecidableEq, Repr

/-- Modelled from the spec: `cpuidle_register_device` of `drivers/cpuidle/cpuidle.c`,
not among the sources: "registered is true iff the device is currently known
to the idle framework". `ret` is its return value, 0 for success; on success
the device is registered, on failure its flag is left as it was. -/
def cpuidle_register_device (ret : Int) (dev : cpuidle_device) : cpuidle_device :=
  if ret = 0 then { dev with registered := true } else dev

/-- Modelled from the spec: `cpuidle_unregister_device` of
`drivers/cpuidle/cpuidle.c`, not among the sources: "if Registered, unregister
and transition to Unregistered". -/
def cpuidle_unregister_device (dev : cpuidle_device) : cpuidle_device :=
  { dev with registered := false }

/-- What a hotplug callback leaves behind: its return value, the per-core device
table `test_cpuidle_devices`, and the framework calls it made. -/
structure hotplug_result where
  ret : Int
  devices : Nat → cpuidle_device
  calls : List device_call

/-- `cpuidle_cpu_online(cpu)`. `devices` is the per-core table
(`per_cpu_ptr(test_cpuidle_devices, cpu)` is `devices cpu`); `reg_ret` is what
`cpuidle_register_device` returns if it is called. -/
def cpuidle_cpu_online (cpu : Nat) (reg_ret : Int) (devices : Nat → cpuidle_device) :
    hotplug_result :=
  let dev := devices cpu
  if dev.registered = false then
    let dev1 : cpuidle_device := { dev with cpu := cpu }
    let dev2 := cpuidle_register_device reg_ret dev1
    let devices' := Function.update devices cpu dev2
    if reg_ret ≠ 0 then
      { ret := - EIO, devices := devices',
        calls := [device_call.cpuidle_register_device cpu dev1 reg_ret] }
    else
      { ret := 0, devices := devices',
        calls := [device_call.cpuidle_register_device cpu dev1 reg_ret] }
  else
    { ret := 0, devices := devices, calls := [] }

/-- `cpuidle_cpu_dead(cpu)`. -/
def cpuidle_cpu_dead (cpu : Nat) (devices : Nat → cpuidle_device) : hotplug_result :=
  let dev := devices cpu
  if dev.registered = true then
    { ret := 0, devices := Function.update devices cpu (cpuidle_unregister_device dev),
      calls := [device_call.cpuidle_unregister_device cpu dev] }
  else
    { ret := 0, devices := devices, calls := [] }

/-- A hotplug event delivered to this module: a core coming online (with the
outcome registration will have if attempted) or a core gone. -/
inductive hotplug_event where
  | online (cpu : Nat) (reg_ret : Int)
  | dead (cpu : Nat)
  deriving DecidableEq, Repr

/-- The callback an event invokes. -/
def hotplug_step (devices : Nat → cpuidle_device) : hotplug_event → hotplug_result
  | .online cpu reg_ret => cpuidle_cpu_online cpu reg_ret devices
  | .dead cpu => cpuidle_cpu_dead cpu devices

/-- A sequence of events, delivered one after the other: the final table and
all framework calls made, in order. -/
def hotplug_run (devices : Nat → cpuidle_device) :
    List hotplug_event → (Nat → cpuidle_device) × List device_call
  | [] => (devices, [])
  | e :: es =>
    let r := hotplug_step devices e
    let rest := hotplug_run r.devices es
    (rest.1, r.calls ++ rest.2)

/-- The per-core table as `alloc_percpu` returns it: zero-filled. -/
def zero_devices : Nat → cpuidle_device := fun _ => { registered := false, cpu := 0 }

/-- A per-core table in which every core's device is registered. -/
def registered_devices : Nat → cpuidle_device := fun c => { registered := true, cpu := c }

/-- Whether a sequence of framework calls respects the spec's device invariant,
given which cores' devices the framework knows at the start: a registration
is only ever made for a device the framework does not know and whose flag is
clear, an unregistration only for a device it knows and whose flag is set. A
successful registration makes the device known, an unregistration forgets
it. -/
def calls_allowed (known : Nat → Bool) : List device_call → Bool
  | [] => true
  | .cpuidle_register_device cpu dev ret :: cs =>
    !known cpu && !dev.registered &&
      calls_allowed (if ret = 0 then Function.update known cpu true else known) cs
  | .cpuidle_unregister_device cpu dev :: cs =>
    known cpu && dev.registered && calls_allowed (Function.update known cpu false) cs

/-! ## `idle_loop` -/

/-- Modelled from the spec: what `idle_loop` observes of its core while it runs ("a
monotonic per-core clock", "mark the core as polling", "until a reschedule
becomes necessary"): the successive values `local_clock()` returns (`u64`
nanoseconds in `linux/sched/clock.h`), the value of
`current_set_polling_and_test()`, and the successive values of
`need_resched()`. None of the three is among the sources. -/
structure idle_env where
  local_clock : Nat → Nat
  current_set_polling_and_test : Bool
  need_resched : Nat → Bool

/-- Nanoseconds per microsecond: `exit_latency` is in microseconds (it is
loaded from `latency_us`), `local_clock()` counts nanoseconds. -/
def NSEC_PER_USEC : Nat := 1000

/-- `while (local_clock() - time_start < latency) { }` with `u64` arithmetic. `n`
is the number of clock samples taken so far; the result is the last sample
and the new number of samples, `none` if the loop is still running after
`fuel` tests. -/
def busy_wait (local_clock : Nat → Nat) (time_start latency : Nat) :
    Nat → Nat → Option (Nat × Nat)
  | 0, _ => none
  | fuel + 1, n =>
    if (local_clock n % 2 ^ 64 + 2 ^ 64 - time_start) % 2 ^ 64 < latency then
      busy_wait local_clock time_start latency fuel (n + 1)
    else some (local_clock n % 2 ^ 64, n + 1)

/-- `while (!need_resched()) cpu_relax();`: the number of polls made, `none`
if the loop is still running after `fuel` polls. -/
def resched_wait (need_resched : Nat → Bool) : Nat → Nat → Option Nat
  | 0, _ => none
  | fuel + 1, n =>
    if need_resched n then some (n + 1)
    else resched_wait need_resched fuel (n + 1)

/-- What a returning `idle_loop` has done: its return value, its first clock
sample and its last one (both in the clock's nanoseconds). -/
structure idle_result where
  ret : Nat
  first_sample : Nat
  last_sample : Nat
  deriving DecidableEq, Repr

/-- `idle_loop(dev, drv, index)`; `dev` is not used by the body. `none`: a loop is
still running after `fuel` tests of its condition, or `index` is outside
`drv->states`. -/
def idle_loop (fuel : Nat) (env : idle_env) (drv : cpuidle_driver) (index : Nat) :
    Option idle_result :=
  match drv.states[index]? with
  | none => none
  | some st =>
    let time_start := env.local_clock 0 % 2 ^ 64
    match busy_wait env.local_clock time_start st.exit_latency fuel 1 with
    | none => none
    | some (_, n1) =>
      match (if env.current_set_polling_and_test = false then
          resched_wait env.need_resched fuel 0 else some 0) with
      | none => none
      | some _ =>
        let time_start2 := env.local_clock n1 % 2 ^ 64
        match busy_wait env.local_clock time_start2 st.exit_latency fuel (n1 + 1) with
        | none => none
        | some (last, _) =>
          some { ret := index, first_sample := time_start, last_sample := last }

/-! ## Module load and unload -/

/-- A call this file makes into the kernel at load or unload, with its outcome
where it has one. -/
inductive effect where
  | cpuidle_register (ret : Int)
  | alloc_percpu (ok : Bool)
  | cpuhp_setup_state_nocalls (ret : Int)
  | cpuhp_remove_state (state : Int)
  | cpuidle_unregister_driver
  | free_percpu
  deriving DecidableEq, Repr

/-- The file-scope variables that load and unload write. `devices_allocated` is
`test_cpuidle_devices != NULL`. -/
structure module_state where
  states : List cpuidle_state
  cpuidle_state_table : List cpuidle_state
  driver : cpuidle_driver
  test_hp_idlestate : Int
  devices_allocated : Bool
  deriving DecidableEq, Repr

/-- The variables as the loader finds them. -/
def module_state_init : module_state :=
  { states := cpuidle_states, cpuidle_state_table := [], driver := test_cpuidle_driver,
    test_hp_idlestate := 0, devices_allocated := false }

/-- `test_cpuidle_uninit()`: the state it leaves and the calls it makes, in
order. -/
def test_cpuidle_uninit (m : module_state) : module_state × List effect :=
  ({ m with devices_allocated := false },
    (if m.test_hp_idlestate ≠ 0 then [effect.cpuhp_remove_state m.test_hp_idlestate] else [])
      ++ [effect.cpuidle_unregister_driver, effect.free_percpu])

/-- `test_cpuidle_init()`. `reg_ret`, `alloc_ok` and `hp_ret` are the outcomes of
`cpuidle_register`, `alloc_percpu` and `cpuhp_setup_state_nocalls`; the result
is the state left, the return value and the calls made, in order. -/
def test_cpuidle_init (nr_states sim_type : Nat) (name latency_us residency_us : List Char)
    (temp : Int) (reg_ret : Int) (alloc_ok : Bool) (hp_ret : Int) (m : module_state) :
    Except Fault (module_state × Int × List effect) :=
  match add_cpuidle_states nr_states sim_type name latency_us residency_us temp m.states with
  | .error e => .error e
  | .ok r =>
    match cpuidle_driver_init nr_states r.cpuidle_state_table m.driver with
    | .error e => .error e
    | .ok drv =>
      let m1 : module_state :=
        { m with states := r.states, cpuidle_state_table := r.cpuidle_state_table,
                 driver := drv }
      if reg_ret ≠ 0 then
        .ok (m1, reg_ret, [effect.cpuidle_register reg_ret])
      else if alloc_ok = false then
        .ok (m1, -ENOMEM,
          [effect.cpuidle_register reg_ret, effect.alloc_percpu false,
            effect.cpuidle_unregister_driver])
      else
        let m2 : module_state := { m1 with devices_allocated := true }
        if hp_ret < 0 then
          .ok ((test_cpuidle_uninit m2).1, hp_ret,
            [effect.cpuidle_register reg_ret, effect.alloc_percpu true,
              effect.cpuhp_setup_state_nocalls hp_ret] ++ (test_cpuidle_uninit m2).2)
        else
          .ok ({ m2 with test_hp_idlestate := hp_ret }, 0,
            [effect.cpuidle_register reg_ret, effect.alloc_percpu true,
              effect.cpuhp_setup_state_nocalls hp_ret])

/-- Whether, along a sequence of calls, the per-core table is never released
while the hotplug callbacks are subscribed, given whether they are at the
start: a `cpuhp_setup_state_nocalls` that does not fail subscribes them,
`cpuhp_remove_state` unsubscribes them. -/
def release_safe (subscribed : Bool) : List effect → Bool
  | [] => true
  | effect.free_percpu :: es => !subscribed && release_safe subscribed es
  | effect.cpuhp_setup_state_nocalls ret :: es =>
    release_safe (subscribed || decide (0 ≤ ret)) es
  | effect.cpuhp_remove_state _ :: es => release_safe false es
  | _ :: es => release_safe subscribed es

/-- Modelled from the spec: what the kernel holds on behalf of this module ("registers
a driver descriptor ... with an external idle-selection framework", "subscribes
a pair of callbacks", "the per-core device table"): whether the driver is
registered, whether the hotplug callbacks are subscribed, whether the per-core
table is allocated. -/
structure kernel_view where
  driver_registered : Bool
  callbacks_subscribed : Bool
  table_allocated : Bool
  deriving DecidableEq, Repr

/-- Modelled from the spec: the effect of one kernel call on what the kernel holds.
`cpuidle_register` leaves the driver registered iff it returns 0,
`alloc_percpu` leaves a table iff it succeeds, `cpuhp_setup_state_nocalls`
subscribes the callbacks unless it returns an error; the three others undo
them. None of the six is among the sources. -/
def kernel_step (k : kernel_view) : effect → kernel_view
  | .cpuidle_register ret => { k with driver_registered := decide (ret = 0) }
  | .alloc_percpu ok => { k with table_allocated := ok }
  | .cpuhp_setup_state_nocalls ret =>
    { k with callbacks_subscribed := k.callbacks_subscribed || decide (0 ≤ ret) }
  | .cpuhp_remove_state _ => { k with callbacks_subscribed := false }
  | .cpuidle_unregister_driver => { k with driver_registered := false }
  | .free_percpu => { k with table_allocated := false }

/-- What the kernel holds after a sequence of calls. -/
def kernel_after (k : kernel_view) (es : List effect) : kernel_view :=
  es.foldl kernel_step k

/-- Nothing held: no driver, no callbacks, no table. -/
def kernel_nothing : kernel_view :=
  { driver_registered := false, callbacks_subscribed := false, table_allocated := false }

/-- What the spec calls the enabled descriptors among the first `nr_states`
entries of a table, in table order. -/
def enabled_entries (nr_states : Nat) (table : List cpuidle_state) : List cpuidle_state :=
  (table.take nr_states).filter (fun d => d.enter)

/-- The comma-separated fields of a string, by position. The empty string has one
(empty) field here; see `param_fields`. -/
def fields : List Char → List (List Char)
  | [] => [[]]
  | c :: cs =>
    if c = ',' then [] :: fields cs
    else
      match fields cs with
      | [] => [[c]]
      | f :: fs => (c :: f) :: fs

/-- The comma-separated fields of a module parameter: none for the empty
parameter, otherwise one more than it has commas. -/
def param_fields (param : List Char) : List (List Char) :=
  if param = [] then [] else fields param

/-- A parameter written from a list of names: the names with a comma between
each two. -/
def join_comma : List (List Char) → List Char
  | [] => []
  | [n] => n
  | n :: ns => n ++ ',' :: join_comma ns

/-- The parsing loop run over an explicit list of fields: the body is applied to
the fields by position, starting at `index`, while `index <= nr_states`. -/
def apply_fields {σ : Type} (nr_states : Nat)
    (body : Nat → List Char → σ → Except Fault σ) :
    List (List Char) → Nat → σ → Except Fault σ
  | [], _, st => .ok st
  | f :: fs, index, st =>
    if index ≤ nr_states then
      match body index f st with
      | .error e => .error e
      | .ok st' => apply_fields nr_states body fs (index + 1) st'
    else .ok st

/-- The descriptor the name loop makes of a zero-filled slot. -/
def named_state (name : List Char) : cpuidle_state :=
  { name := name, exit_latency := 0, target_residency := 0, enter := true }

/-- The part of a descriptor the numeric loops never write: its name and its
entry routine. -/
def state_key (d : cpuidle_state) : List Char × Bool := (d.name, d.enter)

/-- What the residency and latency bodies have in common: inside the table they
succeed, keep the table's length, keep every name and entry routine, and write
no slot but `index`. -/
def frame_body (body : Nat → List Char → List cpuidle_state × Int →
    Except Fault (List cpuidle_state × Int)) : Prop :=
  ∀ (index : Nat) (f : List Char) (st : List cpuidle_state × Int),
    index < st.1.length →
    ∃ st', body index f st = .ok st' ∧ st'.1.length = st.1.length ∧
      st'.1.map state_key = st.1.map state_key ∧
      ∀ i, i ≠ index → st'.1[i]? = st.1[i]?

/-- The value of a valid non-negative base-10 integer: a non-empty string of
decimal digits; `none` for any other string. -/
def decimal_value (f : List Char) : Option Nat :=
  if f ≠ [] ∧ f.all Char.isDigit = true then
    some (f.foldl (fun acc c => acc * 10 + (c.toNat - 48)) 0)
  else none

/-- A core whose clock advances 5 ns from one sample to the next, whose polling
test finds no work pending, and on which a reschedule becomes necessary at the
third poll. -/
def steady_env : idle_env :=
  { local_clock := fun n => 5 * n, current_set_polling_and_test := false,
    need_resched := fun n => decide (2 ≤ n) }

/-! # Theorems -/

/-! ## Lists -/

theorem take_set_succ {α : Type} : ∀ (l : List α) (n : Nat) (a : α), n < l.length →
    (l.set n a).take (n + 1) = l.take n ++ [a]
  | [], n, a, h => by simp at h
  | x :: xs, 0, a, _ => by simp
  | x :: xs, n + 1, a, h => by
    have := take_set_succ xs n a (by simpa using h)
    simp [List.set, List.take, this]

theorem map_set_same {α β : Type} (f : α → β) (l : List α) (i : Nat) (d x : α)
    (h : l[i]? = some d) (hx : f x = f d) : (l.set i x).map f = l.map f := by
  apply List.ext_getElem?
  intro n
  by_cases hn : i = n
  · subst hn
    have hi : i < l.length := by
      rcases Nat.lt_or_ge i l.length with h' | h'
      · exact h'
      · rw [List.getElem?_eq_none h'] at h; cases h
    have hd : l[i] = d := by
      rw [List.getElem?_eq_getElem hi] at h
      exact Option.some.inj h
    simp [List.getElem?_map, hx, hi, hd]
  · simp [List.getElem?_map, List.getElem?_set, hn]

theorem getElem?_set_other {α : Type} (l : List α) (i n : Nat) (x : α) (h : n ≠ i) :
    (l.set i x)[n]? = l[n]? := by
  simp [List.getElem?_set, Ne.symm h]

/-! ## `strsep` and the fields of a parameter -/

theorem fields_eq_strsep_scan (s : List Char) :
    fields s = (strsep_scan s).1 ::
      (match (strsep_scan s).2 with
        | none => []
        | some rest => fields rest) := by
  induction s with
  | nil => simp [fields, strsep_scan]
  | cons c cs ih =>
    by_cases hc : c = ','
    · simp [fields, strsep_scan, hc]
    · simp only [fields, strsep_scan, hc, if_false]
      rw [ih]

theorem strsep_scan_rest_length (s rest : List Char)
    (h : (strsep_scan s).2 = some rest) : rest.length < s.length := by
  induction s with
  | nil => simp [strsep_scan] at h
  | cons c cs ih =>
    by_cases hc : c = ','
    · simp [strsep_scan, hc] at h
      subst h
      simp
    · simp only [strsep_scan, hc, if_false] at h
      have := ih h
      simp only [List.length_cons]
      omega

theorem fields_length_le (s : List Char) : (fields s).length ≤ s.length + 1 := by
  induction s with
  | nil => simp [fields]
  | cons c cs ih =>
    by_cases hc : c = ','
    · simp [fields, hc]; omega
    · simp only [fields, hc, if_false]
      cases hf : fields cs with
      | nil => simp
      | cons f fs => rw [hf] at ih; simp at ih ⊢; omega

theorem fields_no_comma (n : List Char) (h : ',' ∉ n) : fields n = [n] := by
  induction n with
  | nil => rfl
  | cons c cs ih =>
    have hc : c ≠ ',' := fun e => h (by simp [e])
    have hcs : ',' ∉ cs := fun e => h (List.mem_cons_of_mem _ e)
    simp [fields, hc, ih hcs]

theorem fields_append_comma (n rest : List Char) (h : ',' ∉ n) :
    fields (n ++ ',' :: rest) = n :: fields rest := by
  induction n with
  | nil => simp [fields]
  | cons c cs ih =>
    have hc : c ≠ ',' := fun e => h (by simp [e])
    have hcs : ',' ∉ cs := fun e => h (List.mem_cons_of_mem _ e)
    simp [fields, hc, ih hcs]

/-- The fields of a parameter written from a non-empty list of comma-free names
are those names. -/
theorem fields_join_comma : ∀ (names : List (List Char)), names ≠ [] →
    (∀ n ∈ names, ',' ∉ n) → fields (join_comma names) = names
  | [], h, _ => absurd rfl h
  | [n], _, hn => by simpa [join_comma] using fields_no_comma n (hn n (by simp))
  | n :: m :: ns, _, hn => by
    have ih := fields_join_comma (m :: ns) (by simp) (fun x hx => hn x (List.mem_cons_of_mem _ hx))
    simp only [join_comma]
    rw [fields_append_comma n _ (hn n (by simp)), ih]

/-- A parameter written from `k` comma-free names has these `k` names as its
fields, the single empty name apart (it is written as the empty parameter,
which has no field). -/
theorem param_fields_join_comma (names : List (List Char)) (hne : names ≠ [[]])
    (hn : ∀ n ∈ names, ',' ∉ n) : param_fields (join_comma names) = names := by
  cases names with
  | nil => simp [join_comma, param_fields]
  | cons n ns =>
    have hf := fields_join_comma (n :: ns) (by simp) hn
    unfold param_fields
    split
    · rename_i hnil
      rw [hnil] at hf
      simp only [fields] at hf
      exact absurd hf.symm hne
    · exact hf

/-- The loop as written, with the iteration bound its callers pass, is the
body applied to the fields of the string by position: the bound is never
exhausted. -/
theorem strsep_loop_eq_apply_fields {σ : Type} (nr_states : Nat)
    (body : Nat → List Char → σ → Except Fault σ) :
    ∀ (fuel : Nat) (s : List Char) (index : Nat) (st : σ), s.length + 2 ≤ fuel →
      strsep_loop nr_states body fuel (some s) index st =
        apply_fields nr_states body (fields s) index st := by
  intro fuel
  induction fuel with
  | zero => intro s index st h; omega
  | succ fuel ih =>
    intro s index st h
    rw [fields_eq_strsep_scan s]
    simp only [strsep_loop, strsep, apply_fields]
    by_cases hi : index ≤ nr_states
    · simp only [hi, if_true]
      cases hb : body index (strsep_scan s).1 st with
      | error e => rfl
      | ok st' =>
        cases hr : (strsep_scan s).2 with
        | none =>
          cases fuel with
          | zero => omega
          | succ fuel => simp [strsep_loop, strsep, apply_fields]
        | some rest =>
          have := strsep_scan_rest_length s rest hr
          simpa using ih rest (index + 1) st' (by omega)
    · simp [hi]

/-- Each guarded loop of `add_cpuidle_states`, as the body applied to the fields
of its parameter. -/
theorem guarded_loop_eq {σ : Type} (nr_states : Nat)
    (body : Nat → List Char → σ → Except Fault σ) (param : List Char) (st : σ) :
    (if strnlen param MAX_PARAM_LENGTH ≠ 0 then
        strsep_loop nr_states body (param.length + 2) (some param) 1 st
      else .ok st) =
      apply_fields nr_states body (param_fields param) 1 st := by
  cases param with
  | nil => simp [strnlen, param_fields, apply_fields]
  | cons c cs =>
    have h : strnlen (c :: cs) MAX_PARAM_LENGTH ≠ 0 := by
      simp [strnlen, MAX_PARAM_LENGTH]
    rw [if_pos h, strsep_loop_eq_apply_fields nr_states body _ _ _ _ (le_refl _)]
    simp [param_fields]

/-- In custom mode (any `sim_type` other than 1 and 2) `add_cpuidle_states` is the
name, residency and latency bodies applied in turn to the fields of the three
parameters. -/
theorem add_cpuidle_states_custom (nr_states sim_type : Nat)
    (name latency_us residency_us : List Char) (temp : Int) (tbl : List cpuidle_state)
    (h1 : sim_type ≠ 1) (h2 : sim_type ≠ 2) :
    add_cpuidle_states nr_states sim_type name latency_us residency_us temp tbl =
      match apply_fields nr_states name_body (param_fields name) 1 tbl with
      | .error e => .error e
      | .ok tbl1 =>
        match apply_fields nr_states residency_body (param_fields residency_us) 1
            (tbl1, temp) with
        | .error e => .error e
        | .ok st2 =>
          match apply_fields nr_states latency_body (param_fields latency_us) 1 st2 with
          | .error e => .error e
          | .ok st3 =>
            .ok { states := st3.1, cpuidle_state_table := st3.1,
                  ret := uint_to_int nr_states } := by
  unfold add_cpuidle_states
  simp only [h1, h2, if_false, guarded_loop_eq]

/-! ## The numeric loops leave names and entry routines alone -/

theorem residency_body_frame : frame_body residency_body := by
  intro index f st h
  have hget : st.1[index]? = some st.1[index] := List.getElem?_eq_getElem h
  refine ⟨_, by simp only [residency_body, hget]; rfl, by simp, ?_, ?_⟩
  · exact map_set_same state_key _ _ _ _ hget rfl
  · intro i hi
    exact getElem?_set_other _ _ _ _ hi

theorem latency_body_frame : frame_body latency_body := by
  intro index f st h
  have hget : st.1[index]? = some st.1[index] := List.getElem?_eq_getElem h
  refine ⟨_, by simp only [latency_body, hget]; rfl, by simp, ?_, ?_⟩
  · exact map_set_same state_key _ _ _ _ hget rfl
  · intro i hi
    exact getElem?_set_other _ _ _ _ hi

/-- A numeric loop that stays inside the table (the fields end before the
table does, or `nr_states` is below the table's length) succeeds, keeps length,
names and entry routines, and writes no slot below its starting index. -/
theorem apply_fields_frame (nr_states : Nat)
    (body : Nat → List Char → List cpuidle_state × Int →
      Except Fault (List cpuidle_state × Int))
    (hb : frame_body body) :
    ∀ (fs : List (List Char)) (index : Nat) (st : List cpuidle_state × Int),
      (index + fs.length ≤ st.1.length ∨ nr_states < st.1.length) →
      ∃ st', apply_fields nr_states body fs index st = .ok st' ∧
        st'.1.length = st.1.length ∧
        st'.1.map state_key = st.1.map state_key ∧
        ∀ i, i < index → st'.1[i]? = st.1[i]? := by
  intro fs
  induction fs with
  | nil =>
    intro index st _
    exact ⟨st, rfl, rfl, rfl, fun _ _ => rfl⟩
  | cons f fs ih =>
    intro index st hin
    by_cases hi : index ≤ nr_states
    · have hlt : index < st.1.length := by
        rcases hin with h | h
        · simp only [List.length_cons] at h; omega
        · omega
      obtain ⟨st1, hrun1, hlen1, hkey1, hother1⟩ := hb index f st hlt
      obtain ⟨st', hrun, hlen, hkey, hother⟩ := ih (index + 1) st1 (by
        rcases hin with h | h
        · left; simp only [List.length_cons] at h; omega
        · right; omega)
      refine ⟨st', ?_, by omega, by rw [hkey, hkey1], ?_⟩
      · simp only [apply_fields, hi, if_true, hrun1, hrun]
      · intro i hlti
        rw [hother i (by omega), hother1 i (by omega)]
    · exact ⟨st, by simp [apply_fields, hi], rfl, rfl, fun _ _ => rfl⟩

/-! ## The name loop on zero-filled slots -/

/-- The name loop, started at the first of `m` zero-filled slots, turns as many
of them as there are fields into named, enabled descriptors, when every field
fits the name member and the index limit is not reached. -/
theorem apply_fields_name_zero (nr_states : Nat) :
    ∀ (fs : List (List Char)) (pre : List cpuidle_state) (m : Nat),
      fs.length ≤ m → pre.length + fs.length ≤ nr_states + 1 →
      (∀ f ∈ fs, f.length + 1 ≤ CPUIDLE_NAME_LEN) →
      apply_fields nr_states name_body fs pre.length (pre ++ List.replicate m zero_state) =
        .ok (pre ++ fs.map named_state ++ List.replicate (m - fs.length) zero_state) := by
  intro fs
  induction fs with
  | nil => intro pre m _ _ _; simp [apply_fields]
  | cons f fs ih =>
    intro pre m hm hnr hfit
    simp only [List.length_cons] at hm hnr
    obtain ⟨m', rfl⟩ : ∃ m', m = m' + 1 := ⟨m - 1, by omega⟩
    have hi : pre.length ≤ nr_states := by omega
    have hf : f.length + 1 ≤ CPUIDLE_NAME_LEN := hfit f (List.mem_cons_self _ _)
    have hget : (pre ++ List.replicate (m' + 1) zero_state)[pre.length]? = some zero_state := by
      rw [List.getElem?_append_right (le_refl _)]
      simp [List.replicate_succ]
    have hset : (pre ++ List.replicate (m' + 1) zero_state).set pre.length
        { zero_state with name := f, enter := true } =
        (pre ++ [named_state f]) ++ List.replicate m' zero_state := by
      simp [List.set_append_right, List.replicate_succ, named_state, zero_state]
    have := ih (pre ++ [named_state f]) m' (by omega) (by simp; omega)
      (fun g hg => hfit g (List.mem_cons_of_mem _ hg))
    simp only [List.length_append, List.length_singleton] at this
    simp only [apply_fields, hi, if_true, name_body, hget, hf, hset, this]
    simp

/-! ## The driver assembler -/

/-- Loop invariant of `cpuidle_driver_init`: run from `idle_state` for
`remaining` iterations inside the table, with room in the driver's array, the
loop appends the enabled entries it meets after the first `state_count` states. -/
theorem cpuidle_driver_init_loop_spec (table : List cpuidle_state) :
    ∀ (remaining idle_state : Nat) (drv : cpuidle_driver),
      idle_state + remaining ≤ table.length →
      drv.state_count +
          (((table.drop idle_state).take remaining).filter (fun d => d.enter)).length
        ≤ drv.states.length →
      ∃ drv', cpuidle_driver_init_loop table remaining idle_state drv = .ok drv' ∧
        drv'.state_count = drv.state_count +
          (((table.drop idle_state).take remaining).filter (fun d => d.enter)).length ∧
        drv'.states.length = drv.states.length ∧
        drv'.states.take drv'.state_count =
          drv.states.take drv.state_count ++
            ((table.drop idle_state).take remaining).filter (fun d => d.enter) := by
  intro remaining
  induction remaining with
  | zero =>
    intro idle_state drv _ _
    exact ⟨drv, by simp [cpuidle_driver_init_loop]⟩
  | succ r ih =>
    intro idle_state drv hlen hroom
    have hlt : idle_state < table.length := by omega
    have hdrop : table.drop idle_state = table[idle_state] :: table.drop (idle_state + 1) :=
      List.drop_eq_getElem_cons hlt
    have hget : table[idle_state]? = some table[idle_state] := List.getElem?_eq_getElem hlt
    rw [hdrop, List.take_succ_cons] at hroom ⊢
    unfold cpuidle_driver_init_loop
    rw [hget]
    cases hen : table[idle_state].enter with
    | false =>
      simp only [List.filter_cons, hen] at hroom ⊢
      simpa using ih (idle_state + 1) drv (by omega) (by simpa using hroom)
    | true =>
      simp only [List.filter_cons, hen, List.length_cons, if_true] at hroom ⊢
      have hsc : drv.state_count < drv.states.length := by omega
      obtain ⟨drv', hrun, hcount, hlen', htake⟩ :=
        ih (idle_state + 1)
          { states := drv.states.set drv.state_count table[idle_state],
            state_count := drv.state_count + 1 }
          (by omega) (by simp only [List.length_set]; omega)
      refine ⟨drv', ?_, ?_, ?_, ?_⟩
      · simpa [hsc] using hrun
      · simp only at hcount; omega
      · simpa using hlen'
      · rw [htake]
        simp only [take_set_succ _ _ _ hsc, List.append_assoc, List.singleton_append]

/-- What `cpuidle_driver_init` computes whenever the first `nr_states` entries
are inside the table and the enabled ones fit the driver's array. -/
theorem cpuidle_driver_init_spec (nr_states : Nat) (table : List cpuidle_state)
    (drv : cpuidle_driver) (hnr : nr_states ≤ table.length)
    (hroom : (enabled_entries nr_states table).length ≤ drv.states.length) :
    ∃ drv', cpuidle_driver_init nr_states table drv = .ok drv' ∧
      drv'.state_count = (enabled_entries nr_states table).length ∧
      drv'.states.length = drv.states.length ∧
      drv'.states.take drv'.state_count = enabled_entries nr_states table := by
  have h := cpuidle_driver_init_loop_spec table nr_states 0 { drv with state_count := 0 }
    (by simpa using hnr) (by simpa [enabled_entries] using hroom)
  simpa [cpuidle_driver_init, enabled_entries] using h

/-- With `nr_states` above the table's length the loop of `cpuidle_driver_init`
never completes: it reads `cpuidle_state_table` past its end, unless it has
left the driver's array before. -/
theorem cpuidle_driver_init_loop_overrun (table : List cpuidle_state) :
    ∀ (remaining idle_state : Nat) (drv : cpuidle_driver),
      idle_state ≤ table.length → table.length < idle_state + remaining →
      ∃ e, cpuidle_driver_init_loop table remaining idle_state drv = .error e := by
  intro remaining
  induction remaining with
  | zero => intro idle_state drv h1 h2; omega
  | succ r ih =>
    intro idle_state drv h1 h2
    unfold cpuidle_driver_init_loop
    cases hget : table[idle_state]? with
    | none => exact ⟨_, rfl⟩
    | some st =>
      have hlt : idle_state < table.length := by
        rcases Nat.lt_or_ge idle_state table.length with h' | h'
        · exact h'
        · rw [List.getElem?_eq_none h'] at hget; cases hget
      simp only
      split
      · exact ih (idle_state + 1) drv (by omega) (by omega)
      · split
        · exact ih (idle_state + 1) _ (by omega) (by omega)
        · exact ⟨_, rfl⟩

/-- `cpuidle_driver_init` with `nr_states` above the table's length faults, whatever
the table and the driver. -/
theorem cpuidle_driver_init_overrun (nr_states : Nat) (table : List cpuidle_state)
    (drv : cpuidle_driver) (h : table.length < nr_states) :
    ∃ e, cpuidle_driver_init nr_states table drv = .error e :=
  cpuidle_driver_init_loop_overrun table nr_states 0 _ (Nat.zero_le _) (by omega)

theorem enabled_entries_length_le (nr_states : Nat) (table : List cpuidle_state) :
    (enabled_entries nr_states table).length ≤ nr_states := by
  unfold enabled_entries
  exact (List.length_filter_le _ _).trans (by simp)

/-- C4. For every state table (at most `CPUIDLE_STATE_MAX` descriptors) and every
`nr_states` within the table's length, `cpuidle_driver_init` succeeds and leaves
in `states[0..state_count)` exactly the entries of `table[0..nr_states-1]`
whose entry routine is non-NULL, by value and in table order; `state_count` is
their number, hence at most `nr_states`. -/
theorem cpuidle_driver_init_enabled_subsequence (nr_states : Nat)
    (table : List cpuidle_state) (drv : cpuidle_driver)
    (hnr : nr_states ≤ table.length) (htable : table.length ≤ CPUIDLE_STATE_MAX)
    (hdrv : drv.states.length = CPUIDLE_STATE_MAX) :
    ∃ drv', cpuidle_driver_init nr_states table drv = .ok drv' ∧
      drv'.states.take drv'.state_count =
        (table.take nr_states).filter (fun d => d.enter) ∧
      drv'.state_count = ((table.take nr_states).filter (fun d => d.enter)).length ∧
      drv'.state_count ≤ nr_states := by
  have hle := enabled_entries_length_le nr_states table
  obtain ⟨drv', hrun, hcount, _, htake⟩ :=
    cpuidle_driver_init_spec nr_states table drv hnr (by omega)
  exact ⟨drv', hrun, htake, hcount, by omega⟩

/-- C4 at the custom table with its second slot named and enabled and its third
slot disabled, `nr_states = 4`. -/
theorem cpuidle_driver_init_enabled_subsequence_witness :
    ∃ drv', cpuidle_driver_init 4
        [snooze_state, { zero_state with name := [ 'a'], enter := true }, zero_state,
          { zero_state with name := [ 'c'], enter := true }]
        test_cpuidle_driver = .ok drv' ∧
      drv'.states.take drv'.state_count =
        ([snooze_state, { zero_state with name := [ 'a'], enter := true }, zero_state,
          { zero_state with name := [ 'c'], enter := true }].take 4).filter
            (fun d => d.enter) ∧
      drv'.state_count =
        (([snooze_state, { zero_state with name := [ 'a'], enter := true }, zero_state,
          { zero_state with name := [ 'c'], enter := true }].take 4).filter
            (fun d => d.enter)).length ∧
      drv'.state_count ≤ 4 :=
  cpuidle_driver_init_enabled_subsequence 4 _ test_cpuidle_driver (by decide) (by decide)
    (by decide)

/-! ## Presets -/

theorem enabled_entries_ppc (nr_states : Nat) (h : nr_states ≤ 4) :
    enabled_entries nr_states cpuidle_states_ppc = cpuidle_states_ppc.take nr_states := by
  interval_cases nr_states <;> decide

theorem enabled_entries_intel (nr_states : Nat) (h : nr_states ≤ 4) :
    enabled_entries nr_states cpuidle_states_intel = cpuidle_states_intel.take nr_states := by
  interval_cases nr_states <;> decide

/-- C1, as the code has it. For `sim_type` 1 and 2, whatever `name`, `latency_us`,
`residency_us` are, and for every `nr_states ≤ 4`, `add_cpuidle_states` followed
by `cpuidle_driver_init` leaves the custom array untouched and builds a driver
with `state_count = nr_states` whose states are the first `nr_states` preset
states in their fixed order; with `nr_states = 4` these are all four. -/
theorem preset_driver_states (nr_states sim_type : Nat)
    (name latency_us residency_us : List Char) (temp : Int)
    (tbl : List cpuidle_state) (drv : cpuidle_driver)
    (hsim : sim_type = 1 ∨ sim_type = 2) (hnr : nr_states ≤ 4)
    (hdrv : drv.states.length = CPUIDLE_STATE_MAX) :
    ∃ drv', build_driver nr_states sim_type name latency_us residency_us temp tbl drv
        = .ok (tbl, drv') ∧
      drv'.state_count = nr_states ∧
      drv'.states.take nr_states =
        (if sim_type = 1 then cpuidle_states_ppc else cpuidle_states_intel).take nr_states := by
  rcases hsim with rfl | rfl
  · obtain ⟨drv', hrun, hcount, _, htake⟩ :=
      cpuidle_driver_init_spec nr_states cpuidle_states_ppc drv
        (by simpa [cpuidle_states_ppc] using hnr)
        (by have := enabled_entries_length_le nr_states cpuidle_states_ppc
            simp only [hdrv, CPUIDLE_STATE_MAX]; omega)
    rw [enabled_entries_ppc nr_states hnr] at hcount htake
    have hc : drv'.state_count = nr_states := by
      rw [hcount]; simp [cpuidle_states_ppc]; omega
    refine ⟨drv', ?_, hc, ?_⟩
    · simp [build_driver, add_cpuidle_states, hrun]
    · rw [hc] at htake; simpa using htake
  · obtain ⟨drv', hrun, hcount, _, htake⟩ :=
      cpuidle_driver_init_spec nr_states cpuidle_states_intel drv
        (by simpa [cpuidle_states_intel] using hnr)
        (by have := enabled_entries_length_le nr_states cpuidle_states_intel
            simp only [hdrv, CPUIDLE_STATE_MAX]; omega)
    rw [enabled_entries_intel nr_states hnr] at hcount htake
    have hc : drv'.state_count = nr_states := by
      rw [hcount]; simp [cpuidle_states_intel]; omega
    refine ⟨drv', ?_, hc, ?_⟩
    · simp [build_driver, add_cpuidle_states, hrun]
    · rw [hc] at htake; simpa using htake

/-- C1 at the defaults `sim_type = 1`, `nr_states = 4`, with a custom name list
given all the same: the driver holds snooze, stop0, stop1, stop2. -/
theorem preset_driver_states_witness :
    ∃ drv', build_driver 4 1 [ 'a', ',', 'b'] [ '7'] [ '9'] 0 cpuidle_states test_cpuidle_driver
        = .ok (cpuidle_states, drv') ∧
      drv'.state_count = 4 ∧
      drv'.states.take 4 =
        (if 1 = 1 then cpuidle_states_ppc else cpuidle_states_intel).take 4 :=
  preset_driver_states 4 1 _ _ _ 0 cpuidle_states test_cpuidle_driver (Or.inl rfl)
    (by decide) (by decide)

/-- C1 fails as stated: with `sim_type = 1` and `nr_states = 2` the driver has two
states, not four. -/
theorem preset_driver_not_independent_of_nr_states :
    ∃ r, build_driver 2 1 [] [] [] 0 cpuidle_states test_cpuidle_driver = .ok r ∧
      r.2.state_count = 2 ∧ r.2.state_count ≠ 4 :=
  ⟨_, rfl, by decide, by decide⟩

/-! ## Custom mode -/

theorem enabled_entries_key (nr_states : Nat) (table : List cpuidle_state) :
    (enabled_entries nr_states table).map state_key =
      ((table.map state_key).take nr_states).filter (fun k => k.2) := by
  simp only [enabled_entries, ← List.map_take, List.filter_map]
  rfl

theorem enabled_entries_mem_enter (nr_states : Nat) (table : List cpuidle_state)
    (d : cpuidle_state) (h : d ∈ enabled_entries nr_states table) : d.enter = true := by
  simp only [enabled_entries, List.mem_filter] at h
  exact h.2

/-- The enabled prefix of a table made of enabled descriptors followed by
zero-filled slots is the enabled descriptors, once `nr_states` covers them. -/
theorem enabled_entries_append_zero (nr_states r : Nat) (pre : List cpuidle_state)
    (hpre : ∀ d ∈ pre, d.enter = true) (hnr : pre.length ≤ nr_states) :
    enabled_entries nr_states (pre ++ List.replicate r zero_state) = pre := by
  unfold enabled_entries
  rw [List.take_append_eq_append_take, List.take_of_length_le hnr, List.filter_append]
  have h1 : pre.filter (fun d => d.enter) = pre :=
    List.filter_eq_self.mpr (fun d hd => hpre d hd)
  have h2 : ((List.replicate r zero_state).take (nr_states - pre.length)).filter
      (fun d => d.enter) = [] := by
    rw [List.filter_eq_nil_iff]
    intro d hd
    have := List.mem_of_mem_take hd
    rw [List.mem_replicate] at this
    simp [this.2, zero_state]
  rw [h1, h2, List.append_nil]

theorem enabled_entries_head (nr_states : Nat) (table : List cpuidle_state)
    (d : cpuidle_state) (h0 : table[0]? = some d) (hd : d.enter = true)
    (hnr : 1 ≤ nr_states) : (enabled_entries nr_states table)[0]? = some d := by
  cases table with
  | nil => simp at h0
  | cons x xs =>
    simp only [List.getElem?_cons_zero, Option.some.injEq] at h0
    subst h0
    obtain ⟨n, rfl⟩ : ∃ n, nr_states = n + 1 := ⟨nr_states - 1, by omega⟩
    simp [enabled_entries, List.take_succ_cons, List.filter_cons, hd]

/-- The driver custom mode builds from the statically initialised table, when the
name list has at most `nr_states - 1` fields that fit the name member and the
loops stay inside the table: snooze followed by the named slots. -/
theorem custom_driver_spec (nr_states : Nat) (name latency_us residency_us : List Char)
    (temp : Int) (drv : cpuidle_driver)
    (hnr1 : 1 ≤ nr_states) (hnr : nr_states ≤ CPUIDLE_STATE_MAX)
    (hk : (param_fields name).length ≤ nr_states - 1)
    (hfit : ∀ f ∈ param_fields name, f.length + 1 ≤ CPUIDLE_NAME_LEN)
    (hlat : (param_fields latency_us).length ≤ nr_states - 1)
    (hres : (param_fields residency_us).length ≤ nr_states - 1)
    (hdrv : drv.states.length = CPUIDLE_STATE_MAX) :
    ∃ tbl' drv',
      build_driver nr_states 3 name latency_us residency_us temp cpuidle_states drv
        = .ok (tbl', drv') ∧
      drv'.state_count = (param_fields name).length + 1 ∧
      drv'.states[0]? = some snooze_state ∧
      (drv'.states.take drv'.state_count).map (fun d => d.name) =
        snooze_state.name :: param_fields name ∧
      ∀ d ∈ drv'.states.take drv'.state_count, d.enter = true := by
  simp only [CPUIDLE_STATE_MAX] at hnr hdrv
  -- the name loop
  have hname := apply_fields_name_zero nr_states (param_fields name) [snooze_state] 9
    (by omega) (by simp only [List.length_singleton]; omega) hfit
  simp only [List.length_singleton, List.singleton_append] at hname
  have htbl : cpuidle_states = snooze_state :: List.replicate 9 zero_state := rfl
  rw [← htbl] at hname
  -- the residency loop and the latency loop
  obtain ⟨st2, hrun2, hlen2, hkey2, hfix2⟩ :=
    apply_fields_frame nr_states residency_body residency_body_frame
      (param_fields residency_us) 1
      (snooze_state :: ((param_fields name).map named_state ++
        List.replicate (9 - (param_fields name).length) zero_state), temp)
      (by left; simp; omega)
  obtain ⟨st3, hrun3, hlen3, hkey3, hfix3⟩ :=
    apply_fields_frame nr_states latency_body latency_body_frame
      (param_fields latency_us) 1 st2
      (by left; rw [hlen2]; simp; omega)
  have hlen : st3.1.length = 10 := by rw [hlen3, hlen2]; simp; omega
  have hadd : add_cpuidle_states nr_states 3 name latency_us residency_us temp cpuidle_states
      = .ok { states := st3.1, cpuidle_state_table := st3.1,
              ret := uint_to_int nr_states } := by
    rw [add_cpuidle_states_custom _ _ _ _ _ _ _ (by decide) (by decide), hname]
    simp only [List.cons_append, hrun2, hrun3]
  -- the driver assembler
  obtain ⟨drv', hinit, hcount, _, htake⟩ :=
    cpuidle_driver_init_spec nr_states st3.1 drv (by omega)
      (by have := enabled_entries_length_le nr_states st3.1; omega)
  have hkeys : (enabled_entries nr_states st3.1).map state_key =
      (snooze_state :: (param_fields name).map named_state).map state_key := by
    rw [enabled_entries_key, hkey3, hkey2, ← enabled_entries_key]
    have := enabled_entries_append_zero nr_states (9 - (param_fields name).length)
      (snooze_state :: (param_fields name).map named_state)
      (by
        intro d hd
        rcases List.mem_cons.mp hd with rfl | hd
        · rfl
        · obtain ⟨f, _, rfl⟩ := List.mem_map.mp hd
          rfl)
      (by simp; omega)
    rw [← this]
    simp
  have hlenE : (enabled_entries nr_states st3.1).length = (param_fields name).length + 1 := by
    have := congrArg List.length hkeys
    simpa using this
  have hhead : (enabled_entries nr_states st3.1)[0]? = some snooze_state := by
    apply enabled_entries_head _ _ _ _ rfl hnr1
    rw [hfix3 0 (by omega), hfix2 0 (by omega)]
    simp
  refine ⟨st3.1, drv', ?_, ?_, ?_, ?_, ?_⟩
  · simp only [build_driver, hadd, hinit]
  · rw [hcount, hlenE]
  · rw [← hhead, ← htake, List.getElem?_take]
    simp [hcount, hlenE]
  · rw [htake]
    have := congrArg (List.map Prod.fst) hkeys
    simpa [state_key, named_state, Function.comp_def] using this
  · intro d hd
    rw [htake] at hd
    exact enabled_entries_mem_enter _ _ _ hd

/-- C2. In custom mode, from the statically initialised custom table, for
`1 ≤ nr_states ≤ 10` and a `name` parameter of `k ≤ nr_states - 1` fields, each
fitting the name member (and `latency_us`, `residency_us` of at most
`nr_states - 1` fields each, the empty defaults included),
`add_cpuidle_states` followed by `cpuidle_driver_init` succeeds with
`state_count = k + 1`: state 0 is the built-in snooze state, the states carry
the names snooze and then the `k` fields in the order given, and all are
enabled, so no placeholder stands for the remaining requested slots. -/
theorem custom_driver_names (nr_states : Nat) (name latency_us residency_us : List Char)
    (temp : Int) (drv : cpuidle_driver)
    (hnr1 : 1 ≤ nr_states) (hnr : nr_states ≤ CPUIDLE_STATE_MAX)
    (hk : (param_fields name).length ≤ nr_states - 1)
    (hfit : ∀ f ∈ param_fields name, f.length + 1 ≤ CPUIDLE_NAME_LEN)
    (hlat : (param_fields latency_us).length ≤ nr_states - 1)
    (hres : (param_fields residency_us).length ≤ nr_states - 1)
    (hdrv : drv.states.length = CPUIDLE_STATE_MAX) :
    ∃ tbl' drv',
      build_driver nr_states 3 name latency_us residency_us temp cpuidle_states drv
        = .ok (tbl', drv') ∧
      drv'.state_count = (param_fields name).length + 1 ∧
      drv'.states[0]? = some snooze_state ∧
      (drv'.states.take drv'.state_count).map (fun d => d.name) =
        snooze_state.name :: param_fields name ∧
      ∀ d ∈ drv'.states.take drv'.state_count, d.enter = true :=
  custom_driver_spec nr_states name latency_us residency_us temp drv hnr1 hnr hk hfit hlat hres hdrv

/-- C2 at the spec's first example, `name = "a,b,c"` with `nr_states = 4`: the driver
holds snooze, a, b, c. -/
theorem custom_driver_names_witness :
    ∃ tbl' drv',
      build_driver 4 3 "a,b,c".toList [] [] 0 cpuidle_states test_cpuidle_driver
        = .ok (tbl', drv') ∧
      drv'.state_count = (param_fields "a,b,c".toList).length + 1 ∧
      drv'.states[0]? = some snooze_state ∧
      (drv'.states.take drv'.state_count).map (fun d => d.name) =
        snooze_state.name :: param_fields "a,b,c".toList ∧
      ∀ d ∈ drv'.states.take drv'.state_count, d.enter = true :=
  custom_driver_names 4 "a,b,c".toList [] [] 0 test_cpuidle_driver (by decide) (by decide)
    (by decide) (by decide) (by decide) (by decide) (by decide)

/-- The spec's second example, `name = "a"` with `nr_states = 4`: the driver holds
exactly snooze and a. -/
theorem custom_driver_single_name :
    (build_driver 4 3 "a".toList [] [] 0 cpuidle_states test_cpuidle_driver).map
        (fun r => (r.2.state_count, (r.2.states.take r.2.state_count).map (fun d => d.name)))
      = .ok (2, ["snooze".toList, "a".toList]) := by
  decide

/-- C3 fails on the code: with `nr_states = 11` in custom mode `cpuidle_driver_init`
reads `cpuidle_states[10]`, past the ten-element array, and with ten names the
name loop of `add_cpuidle_states` writes `cpuidle_states[10]` before that; in
preset mode the loop reads `cpuidle_states_ppc[4]`. -/
theorem nr_states_above_max_overruns :
    build_driver 11 3 [] [] [] 0 cpuidle_states test_cpuidle_driver
        = .error (Fault.table_index 10) ∧
      add_cpuidle_states 11 3 "a,b,c,d,e,f,g,h,i,j".toList [] [] 0 cpuidle_states
        = .error (Fault.table_index 10) ∧
      build_driver 11 1 [] [] [] 0 cpuidle_states test_cpuidle_driver
        = .error (Fault.table_index 4) := by
  decide

/-- C5 fails on the code: `kstrtol` fails on the field `x` and `temp` keeps the value
of the field before it, so with `latency_us = "5,x"` slot 2 ends with
`exit_latency = 5`, and with `residency_us = "7,x"` slot 2 ends with
`target_residency = 7`. -/
theorem parse_failure_keeps_previous_value :
    kstrtol "x".toList = none ∧
      (add_cpuidle_states 4 3 [] "5,x".toList [] 0 cpuidle_states).map
          (fun r => r.states.map (fun d => d.exit_latency))
        = .ok [0, 5, 5, 0, 0, 0, 0, 0, 0, 0] ∧
      (add_cpuidle_states 4 3 [] [] "7,x".toList 0 cpuidle_states).map
          (fun r => r.states.map (fun d => d.target_residency))
        = .ok [0, 7, 7, 0, 0, 0, 0, 0, 0, 0] := by
  decide

/-! ## Per-core devices -/

/-- C6. For every core and every device table: `cpuidle_cpu_online` on a core whose
device is already registered returns 0, makes no framework call, changes
nothing and leaves `registered = true`; after `cpuidle_cpu_dead` the device has
`registered = false`, and a second `cpuidle_cpu_dead` returns 0, makes no call
and changes nothing. -/
theorem hotplug_idempotent (cpu : Nat) (reg_ret : Int) (devices : Nat → cpuidle_device) :
    ((devices cpu).registered = true →
        (cpuidle_cpu_online cpu reg_ret devices).ret = 0 ∧
        (cpuidle_cpu_online cpu reg_ret devices).devices = devices ∧
        (cpuidle_cpu_online cpu reg_ret devices).calls = [] ∧
        ((cpuidle_cpu_online cpu reg_ret devices).devices cpu).registered = true) ∧
      ((cpuidle_cpu_dead cpu devices).devices cpu).registered = false ∧
      (cpuidle_cpu_dead cpu (cpuidle_cpu_dead cpu devices).devices).ret = 0 ∧
      (cpuidle_cpu_dead cpu (cpuidle_cpu_dead cpu devices).devices).devices =
        (cpuidle_cpu_dead cpu devices).devices ∧
      (cpuidle_cpu_dead cpu (cpuidle_cpu_dead cpu devices).devices).calls = [] := by
  have hdead : ((cpuidle_cpu_dead cpu devices).devices cpu).registered = false := by
    unfold cpuidle_cpu_dead
    cases h : (devices cpu).registered <;> simp [h, cpuidle_unregister_device]
  refine ⟨?_, hdead, ?_, ?_, ?_⟩
  · intro h
    simp [cpuidle_cpu_online, h]
  · generalize (cpuidle_cpu_dead cpu devices).devices = d at hdead
    simp [cpuidle_cpu_dead, hdead]
  · generalize (cpuidle_cpu_dead cpu devices).devices = d at hdead
    simp [cpuidle_cpu_dead, hdead]
  · generalize (cpuidle_cpu_dead cpu devices).devices = d at hdead
    simp [cpuidle_cpu_dead, hdead]

/-- C6 at core 2 of a table whose devices are all registered. -/
theorem hotplug_idempotent_witness :
    (cpuidle_cpu_online 2 0 registered_devices).ret = 0 ∧
      (cpuidle_cpu_online 2 0 registered_devices).devices = registered_devices ∧
      (cpuidle_cpu_online 2 0 registered_devices).calls = [] ∧
      ((cpuidle_cpu_online 2 0 registered_devices).devices 2).registered = true :=
  (hotplug_idempotent 2 0 registered_devices).1 rfl

theorem calls_allowed_congr (known known' : Nat → Bool) (h : ∀ c, known c = known' c)
    (cs : List device_call) : calls_allowed known cs = calls_allowed known' cs := by
  have : known = known' := funext h
  rw [this]

/-- From any table, with the framework knowing exactly the devices whose flag is
set, every sequence of events makes only allowed calls. -/
theorem hotplug_run_calls_allowed :
    ∀ (events : List hotplug_event) (devices : Nat → cpuidle_device),
      calls_allowed (fun c => (devices c).registered) (hotplug_run devices events).2 = true := by
  intro events
  induction events with
  | nil => intro devices; rfl
  | cons e es ih =>
    intro devices
    cases e with
    | online cpu reg_ret =>
      simp only [hotplug_run, hotplug_step, cpuidle_cpu_online]
      cases hreg : (devices cpu).registered with
      | true => simpa [hreg] using ih devices
      | false =>
        by_cases hret : reg_ret = 0
        · have := ih (Function.update devices cpu
            (cpuidle_register_device reg_ret { devices cpu with cpu := cpu }))
          rw [calls_allowed_congr _ (Function.update (fun c => (devices c).registered) cpu true)
            (by
              intro c
              by_cases hc : c = cpu
              · subst hc; simp [cpuidle_register_device, hret]
              · simp [Function.update, hc])] at this
          simpa [hret, calls_allowed, hreg] using this
        · have := ih (Function.update devices cpu
            (cpuidle_register_device reg_ret { devices cpu with cpu := cpu }))
          rw [calls_allowed_congr _ (fun c => (devices c).registered)
            (by
              intro c
              by_cases hc : c = cpu
              · subst hc; simp [cpuidle_register_device, hret, hreg]
              · simp [Function.update, hc])] at this
          simpa [hret, calls_allowed, hreg] using this
    | dead cpu =>
      simp only [hotplug_run, hotplug_step, cpuidle_cpu_dead]
      cases hreg : (devices cpu).registered with
      | false => simpa [hreg] using ih devices
      | true =>
        have := ih (Function.update devices cpu (cpuidle_unregister_device (devices cpu)))
        rw [calls_allowed_congr _ (Function.update (fun c => (devices c).registered) cpu false)
          (by
            intro c
            by_cases hc : c = cpu
            · subst hc; simp [cpuidle_unregister_device]
            · simp [Function.update, hc])] at this
        simpa [calls_allowed, hreg] using this

/-- C7. Starting from all devices unregistered, along every sequence of
`cpuidle_cpu_online` / `cpuidle_cpu_dead` events, with registration succeeding or
failing arbitrarily, `cpuidle_register_device` is only called on a device whose
flag is clear and which the framework does not know, and
`cpuidle_unregister_device` only on a device whose flag is set and which the
framework knows: no device is registered twice without an unregistration in
between, none is unregistered while not registered. -/
theorem hotplug_calls_allowed (events : List hotplug_event) :
    calls_allowed (fun _ => false) (hotplug_run zero_devices events).2 = true :=
  hotplug_run_calls_allowed events zero_devices

/-- C8. For every core whose device is unregistered: if registration fails,
`cpuidle_cpu_online` returns `-EIO` and the device stays unregistered; if it
succeeds, `cpuidle_cpu_online` returns 0 and the device is registered with its
core id set to that core. Registration is attempted exactly once, on the
device with its core id already set. -/
theorem cpu_online_unregistered (cpu : Nat) (reg_ret : Int) (devices : Nat → cpuidle_device)
    (h : (devices cpu).registered = false) :
    (reg_ret ≠ 0 →
        (cpuidle_cpu_online cpu reg_ret devices).ret = - EIO ∧
        ((cpuidle_cpu_online cpu reg_ret devices).devices cpu).registered = false) ∧
      (reg_ret = 0 →
        (cpuidle_cpu_online cpu reg_ret devices).ret = 0 ∧
        ((cpuidle_cpu_online cpu reg_ret devices).devices cpu).registered = true ∧
        ((cpuidle_cpu_online cpu reg_ret devices).devices cpu).cpu = cpu) ∧
      (cpuidle_cpu_online cpu reg_ret devices).calls =
        [device_call.cpuidle_register_device cpu { devices cpu with cpu := cpu } reg_ret] := by
  refine ⟨?_, ?_, ?_⟩
  · intro hret
    simp [cpuidle_cpu_online, h, hret, cpuidle_register_device]
  · intro hret
    simp [cpuidle_cpu_online, h, hret, cpuidle_register_device]
  · by_cases hret : reg_ret = 0 <;> simp [cpuidle_cpu_online, h, hret]

/-- C8 at core 3 of the zero-filled table, registration failing with -22 and
succeeding. -/
theorem cpu_online_unregistered_witness :
    ((cpuidle_cpu_online 3 (-22) zero_devices).ret = - EIO ∧
        ((cpuidle_cpu_online 3 (-22) zero_devices).devices 3).registered = false) ∧
      ((cpuidle_cpu_online 3 0 zero_devices).ret = 0 ∧
        ((cpuidle_cpu_online 3 0 zero_devices).devices 3).registered = true ∧
        ((cpuidle_cpu_online 3 0 zero_devices).devices 3).cpu = 3) :=
  ⟨(cpu_online_unregistered 3 (-22) zero_devices rfl).1 (by decide),
    (cpu_online_unregistered 3 0 zero_devices rfl).2.1 rfl⟩

/-! ## The idle-entry routine -/

/-- A busy-wait that ends has taken a sample at or after sample `n`, and that
sample is at least `latency` past `time_start` in `u64` arithmetic. -/
theorem busy_wait_spec (local_clock : Nat → Nat) (time_start latency : Nat) :
    ∀ (fuel n last n' : Nat),
      busy_wait local_clock time_start latency fuel n = some (last, n') →
      ∃ k, n ≤ k ∧ n' = k + 1 ∧ last = local_clock k % 2 ^ 64 ∧
        latency ≤ (last + 2 ^ 64 - time_start) % 2 ^ 64 := by
  intro fuel
  induction fuel with
  | zero => intro n last n' h; simp [busy_wait] at h
  | succ fuel ih =>
    intro n last n' h
    unfold busy_wait at h
    split at h
    · obtain ⟨k, hk, hrest⟩ := ih (n + 1) last n' h
      exact ⟨k, by omega, hrest⟩
    · rename_i hnot
      simp only [Option.some.injEq, Prod.mk.injEq] at h
      obtain ⟨h1, h2⟩ := h
      subst h1 h2
      exact ⟨n, le_refl _, rfl, by omega⟩

/-- What the code does guarantee: on a monotonic clock that does not wrap, a
returning `idle_loop` returns its index, and its last clock sample is at least
twice `exit_latency` clock units, that is nanoseconds, after its first. -/
theorem idle_loop_elapsed_ns (fuel : Nat) (env : idle_env) (drv : cpuidle_driver)
    (index : Nat) (st : cpuidle_state) (r : idle_result)
    (hst : drv.states[index]? = some st)
    (hmono : ∀ a b, a ≤ b → env.local_clock a ≤ env.local_clock b)
    (hu64 : ∀ n, env.local_clock n < 2 ^ 64)
    (hrun : idle_loop fuel env drv index = some r) :
    r.ret = index ∧ r.first_sample + 2 * st.exit_latency ≤ r.last_sample := by
  unfold idle_loop at hrun
  rw [hst] at hrun
  simp only at hrun
  split at hrun
  · cases hrun
  · rename_i last1 n1 h1
    split at hrun
    · cases hrun
    · split at hrun
      · cases hrun
      · rename_i last2 n2 h2
        simp only [Option.some.injEq] at hrun
        subst hrun
        obtain ⟨k1, hk1, hn1, hl1, hlat1⟩ := busy_wait_spec _ _ _ _ _ _ _ h1
        obtain ⟨k2, hk2, hn2, hl2, hlat2⟩ := busy_wait_spec _ _ _ _ _ _ _ h2
        have m1 := hmono 0 k1 (by omega)
        have m2 := hmono k1 n1 (by omega)
        have m3 := hmono n1 k2 (by omega)
        have b0 := hu64 0
        have b1 := hu64 k1
        have b2 := hu64 n1
        have b3 := hu64 k2
        refine ⟨rfl, ?_⟩
        simp only
        omega

/-- C9 fails on the code: the loops compare nanoseconds of `local_clock()` with
`exit_latency`, a number of microseconds. In the stop2 state of the first preset
(`exit_latency = 10`), with a clock that advances 5 ns from one sample to the
next, `idle_loop` returns 25 ns after its first sample, far less than the
2 * 10 microseconds the claim requires. -/
theorem idle_loop_returns_early :
    idle_loop 8
        { local_clock := fun n => 5 * n, current_set_polling_and_test := true,
          need_resched := fun _ => true }
        { states := cpuidle_states_ppc, state_count := 4 } 3
      = some { ret := 3, first_sample := 0, last_sample := 25 } ∧
    cpuidle_states_ppc[3]?.map (fun d => d.exit_latency) = some 10 ∧
    25 - 0 < 2 * 10 * NSEC_PER_USEC := by
  decide

/-! ## Module load and unload -/

/-- A load that returns 0 has passed all three steps and recorded the hotplug
state. -/
theorem test_cpuidle_init_success (nr_states sim_type : Nat)
    (name latency_us residency_us : List Char) (temp reg_ret : Int) (alloc_ok : Bool)
    (hp_ret : Int) (m m' : module_state) (effs : List effect)
    (hinit : test_cpuidle_init nr_states sim_type name latency_us residency_us temp
      reg_ret alloc_ok hp_ret m = .ok (m', 0, effs)) :
    reg_ret = 0 ∧ alloc_ok = true ∧ 0 ≤ hp_ret ∧ m'.test_hp_idlestate = hp_ret ∧
      m'.devices_allocated = true ∧
      effs = [effect.cpuidle_register 0, effect.alloc_percpu true,
        effect.cpuhp_setup_state_nocalls hp_ret] := by
  unfold test_cpuidle_init at hinit
  split at hinit
  · cases hinit
  · split at hinit
    · cases hinit
    · simp only at hinit
      split at hinit
      · rename_i hreg
        simp only [Except.ok.injEq, Prod.mk.injEq] at hinit
        exact absurd hinit.2.1 hreg
      · rename_i hreg
        have hreg0 : reg_ret = 0 := not_not.mp hreg
        split at hinit
        · simp only [Except.ok.injEq, Prod.mk.injEq, ENOMEM] at hinit
          have := hinit.2.1
          omega
        · rename_i halloc
          split at hinit
          · rename_i hneg
            simp only [Except.ok.injEq, Prod.mk.injEq] at hinit
            have := hinit.2.1
            omega
          · rename_i hpos
            simp only [Except.ok.injEq, Prod.mk.injEq] at hinit
            obtain ⟨hm, _, heffs⟩ := hinit
            subst hm
            refine ⟨hreg0, by simpa using halloc, by omega, rfl, rfl, ?_⟩
            rw [← heffs, hreg0]

/-- C10. After a `test_cpuidle_init` that returned 0, its hotplug subscription
having returned the positive state number that `cpuhp_setup_state_nocalls`
gives for `CPUHP_AP_ONLINE_DYN`, `test_cpuidle_uninit` makes exactly three calls,
in this order: `cpuhp_remove_state` on that state, `cpuidle_unregister_driver`,
`free_percpu`; and along load followed by unload the per-core table is never
released while the callbacks are subscribed. -/
theorem test_cpuidle_uninit_order (nr_states sim_type : Nat)
    (name latency_us residency_us : List Char) (temp reg_ret : Int) (alloc_ok : Bool)
    (hp_ret : Int) (m m' : module_state) (effs : List effect)
    (hinit : test_cpuidle_init nr_states sim_type name latency_us residency_us temp
      reg_ret alloc_ok hp_ret m = .ok (m', 0, effs))
    (hhp : 0 < hp_ret) :
    (test_cpuidle_uninit m').2 =
        [effect.cpuhp_remove_state hp_ret, effect.cpuidle_unregister_driver,
          effect.free_percpu] ∧
      (test_cpuidle_uninit m').1.devices_allocated = false ∧
      release_safe false (effs ++ (test_cpuidle_uninit m').2) = true := by
  obtain ⟨_, _, _, hstate, _, heffs⟩ :=
    test_cpuidle_init_success _ _ _ _ _ _ _ _ _ _ _ _ hinit
  have hne : hp_ret ≠ 0 := by omega
  have huninit : (test_cpuidle_uninit m').2 =
      [effect.cpuhp_remove_state hp_ret, effect.cpuidle_unregister_driver,
        effect.free_percpu] := by
    simp [test_cpuidle_uninit, hstate, hne]
  refine ⟨huninit, rfl, ?_⟩
  rw [huninit, heffs]
  simp [release_safe]

/-- C10 at the default parameters, from the loader's initial state, with the
hotplug subscription returning state 150. -/
theorem test_cpuidle_uninit_order_witness :
    (test_cpuidle_uninit
        { module_state_init with
          cpuidle_state_table := cpuidle_states_ppc,
          driver := { states := cpuidle_states_ppc ++ List.replicate 6 zero_state,
                      state_count := 4 },
          test_hp_idlestate := 150, devices_allocated := true }).2 =
        [effect.cpuhp_remove_state 150, effect.cpuidle_unregister_driver,
          effect.free_percpu] ∧
      (test_cpuidle_uninit
        { module_state_init with
          cpuidle_state_table := cpuidle_states_ppc,
          driver := { states := cpuidle_states_ppc ++ List.replicate 6 zero_state,
                      state_count := 4 },
          test_hp_idlestate := 150, devices_allocated := true }).1.devices_allocated = false ∧
      release_safe false
        ([effect.cpuidle_register 0, effect.alloc_percpu true,
            effect.cpuhp_setup_state_nocalls 150] ++
          (test_cpuidle_uninit
            { module_state_init with
              cpuidle_state_table := cpuidle_states_ppc,
              driver := { states := cpuidle_states_ppc ++ List.replicate 6 zero_state,
                          state_count := 4 },
              test_hp_idlestate := 150, devices_allocated := true }).2) = true :=
  test_cpuidle_uninit_order 4 1 [] [] [] 0 0 true 150 module_state_init _ _
    (by decide) (by decide)

/-- The three ways a load fails, each from a module state without a per-core
table: the return value, and nothing held by the kernel afterwards. -/
theorem test_cpuidle_init_failure (nr_states sim_type : Nat)
    (name latency_us residency_us : List Char) (temp reg_ret : Int) (alloc_ok : Bool)
    (hp_ret : Int) (m m' : module_state) (ret : Int) (effs : List effect)
    (hm : m.devices_allocated = false)
    (hinit : test_cpuidle_init nr_states sim_type name latency_us residency_us temp
      reg_ret alloc_ok hp_ret m = .ok (m', ret, effs))
    (hfail : reg_ret ≠ 0 ∨ alloc_ok = false ∨ hp_ret < 0) :
    ret = (if reg_ret ≠ 0 then reg_ret else if alloc_ok = false then - ENOMEM else hp_ret) ∧
      ret ≠ 0 ∧ kernel_after kernel_nothing effs = kernel_nothing ∧
      m'.devices_allocated = false := by
  unfold test_cpuidle_init at hinit
  split at hinit
  · cases hinit
  · split at hinit
    · cases hinit
    · simp only at hinit
      by_cases hreg : reg_ret = 0
      · subst hreg
        simp only [ne_eq, not_true_eq_false, if_false] at hinit ⊢
        cases alloc_ok with
        | false =>
          simp only [if_true, Except.ok.injEq, Prod.mk.injEq] at hinit ⊢
          obtain ⟨hm', hret, heffs⟩ := hinit
          subst hm' hret heffs
          exact ⟨rfl, by decide, by decide, hm⟩
        | true =>
          have hneg : hp_ret < 0 := by
            rcases hfail with h | h | h
            · exact absurd rfl h
            · cases h
            · exact h
          simp only [Bool.true_eq_false, if_false, hneg, if_true, Except.ok.injEq,
            Prod.mk.injEq] at hinit ⊢
          obtain ⟨hm', hret, heffs⟩ := hinit
          subst hm' hret heffs
          refine ⟨rfl, by omega, ?_, rfl⟩
          have h0 : ¬ (0 ≤ hp_ret) := by omega
          simp only [test_cpuidle_uninit]
          split <;> simp [kernel_after, kernel_step, kernel_nothing, h0]
      · simp only [ne_eq, hreg, not_false_eq_true, if_true, Except.ok.injEq,
          Prod.mk.injEq] at hinit ⊢
        obtain ⟨hm', hret, heffs⟩ := hinit
        subst hm' hret heffs
        exact ⟨rfl, hreg, by simp [kernel_after, kernel_step, kernel_nothing, hreg], hm⟩

/-- Once the state table and the driver are built, `test_cpuidle_init` returns:
whatever the outcomes of the three kernel calls, it ends with a return value. -/
theorem test_cpuidle_init_returns (nr_states sim_type : Nat)
    (name latency_us residency_us : List Char) (temp reg_ret : Int) (alloc_ok : Bool)
    (hp_ret : Int) (m : module_state) (tbl' : List cpuidle_state) (drv' : cpuidle_driver)
    (hbuild : build_driver nr_states sim_type name latency_us residency_us temp
      m.states m.driver = .ok (tbl', drv')) :
    ∃ m' ret effs, test_cpuidle_init nr_states sim_type name latency_us residency_us temp
      reg_ret alloc_ok hp_ret m = .ok (m', ret, effs) := by
  unfold build_driver at hbuild
  cases hadd : add_cpuidle_states nr_states sim_type name latency_us residency_us temp
      m.states with
  | error e => rw [hadd] at hbuild; cases hbuild
  | ok r =>
    rw [hadd] at hbuild
    simp only at hbuild
    cases hdrv : cpuidle_driver_init nr_states r.cpuidle_state_table m.driver with
    | error e => rw [hdrv] at hbuild; cases hbuild
    | ok drv =>
      simp only [test_cpuidle_init, hadd, hdrv]
      split
      · exact ⟨_, _, _, rfl⟩
      · split
        · exact ⟨_, _, _, rfl⟩
        · split
          · exact ⟨_, _, _, rfl⟩
          · exact ⟨_, _, _, rfl⟩

/-- C11. From a module state without a per-core table, whenever the state table
and the driver are built, for each step of `test_cpuidle_init` that can fail:
when driver registration fails the load returns that error code; when the
per-core table allocation fails it returns `-ENOMEM`; when the hotplug
subscription fails it returns that error code. In all three the load does
return, its return value is non-zero, and nothing is left behind: the driver
is not registered, no callbacks are subscribed, the table is not allocated. -/
theorem test_cpuidle_init_rollback (nr_states sim_type : Nat)
    (name latency_us residency_us : List Char) (temp reg_ret : Int) (alloc_ok : Bool)
    (hp_ret : Int) (m : module_state) (tbl' : List cpuidle_state) (drv' : cpuidle_driver)
    (hm : m.devices_allocated = false)
    (hbuild : build_driver nr_states sim_type name latency_us residency_us temp
      m.states m.driver = .ok (tbl', drv')) :
    (reg_ret ≠ 0 →
        ∃ m' effs, test_cpuidle_init nr_states sim_type name latency_us residency_us temp
            reg_ret alloc_ok hp_ret m = .ok (m', reg_ret, effs) ∧
          reg_ret ≠ 0 ∧ kernel_after kernel_nothing effs = kernel_nothing ∧
          m'.devices_allocated = false) ∧
      (reg_ret = 0 → alloc_ok = false →
        ∃ m' effs, test_cpuidle_init nr_states sim_type name latency_us residency_us temp
            reg_ret alloc_ok hp_ret m = .ok (m', - ENOMEM, effs) ∧
          - ENOMEM ≠ 0 ∧ kernel_after kernel_nothing effs = kernel_nothing ∧
          m'.devices_allocated = false) ∧
      (reg_ret = 0 → alloc_ok = true → hp_ret < 0 →
        ∃ m' effs, test_cpuidle_init nr_states sim_type name latency_us residency_us temp
            reg_ret alloc_ok hp_ret m = .ok (m', hp_ret, effs) ∧
          hp_ret ≠ 0 ∧ kernel_after kernel_nothing effs = kernel_nothing ∧
          m'.devices_allocated = false) := by
  obtain ⟨m', ret, effs, hinit⟩ :=
    test_cpuidle_init_returns nr_states sim_type name latency_us residency_us temp reg_ret
      alloc_ok hp_ret m tbl' drv' hbuild
  refine ⟨?_, ?_, ?_⟩
  · intro hreg
    have h := test_cpuidle_init_failure _ _ _ _ _ _ _ _ _ _ _ _ _ hm hinit (Or.inl hreg)
    simp only [ne_eq, hreg, not_false_eq_true, if_true] at h
    obtain ⟨hret, _, hk, hd⟩ := h
    subst hret
    exact ⟨m', effs, hinit, hreg, hk, hd⟩
  · intro hreg halloc
    have h := test_cpuidle_init_failure _ _ _ _ _ _ _ _ _ _ _ _ _ hm hinit
      (Or.inr (Or.inl halloc))
    simp only [ne_eq, hreg, not_true_eq_false, if_false, halloc, if_true] at h
    obtain ⟨hret, hne, hk, hd⟩ := h
    subst hret
    exact ⟨m', effs, hinit, hne, hk, hd⟩
  · intro hreg halloc hneg
    have h := test_cpuidle_init_failure _ _ _ _ _ _ _ _ _ _ _ _ _ hm hinit
      (Or.inr (Or.inr hneg))
    simp only [ne_eq, hreg, not_true_eq_false, if_false, halloc, Bool.true_eq_false] at h
    obtain ⟨hret, hne, hk, hd⟩ := h
    subst hret
    exact ⟨m', effs, hinit, hne, hk, hd⟩

/-- C11 at the default parameters, from the loader's initial state, on each of
the three paths: driver registration failing with -19, the allocation of the
per-core table failing, and the hotplug subscription failing with -16. -/
theorem test_cpuidle_init_rollback_witness :
    (∃ m' effs, test_cpuidle_init 4 1 [] [] [] 0 (-19) true 150 module_state_init
          = .ok (m', -19, effs) ∧
        (-19 : Int) ≠ 0 ∧ kernel_after kernel_nothing effs = kernel_nothing ∧
        m'.devices_allocated = false) ∧
      (∃ m' effs, test_cpuidle_init 4 1 [] [] [] 0 0 false 150 module_state_init
          = .ok (m', - ENOMEM, effs) ∧
        - ENOMEM ≠ 0 ∧ kernel_after kernel_nothing effs = kernel_nothing ∧
        m'.devices_allocated = false) ∧
      (∃ m' effs, test_cpuidle_init 4 1 [] [] [] 0 0 true (-16) module_state_init
          = .ok (m', -16, effs) ∧
        (-16 : Int) ≠ 0 ∧ kernel_after kernel_nothing effs = kernel_nothing ∧
        m'.devices_allocated = false) :=
  ⟨(test_cpuidle_init_rollback 4 1 [] [] [] 0 (-19) true 150 module_state_init
      cpuidle_states { states := cpuidle_states_ppc ++ List.replicate 6 zero_state,
                       state_count := 4 } rfl (by decide)).1 (by decide),
    (test_cpuidle_init_rollback 4 1 [] [] [] 0 0 false 150 module_state_init
      cpuidle_states { states := cpuidle_states_ppc ++ List.replicate 6 zero_state,
                       state_count := 4 } rfl (by decide)).2.1 rfl rfl,
    (test_cpuidle_init_rollback 4 1 [] [] [] 0 0 true (-16) module_state_init
      cpuidle_states { states := cpuidle_states_ppc ++ List.replicate 6 zero_state,
                       state_count := 4 } rfl (by decide)).2.2 rfl rfl (by decide)⟩

/-- The three failing loads of the defaults, call by call: a failed registration
is followed by no other call, a failed allocation by the unregistration of
the driver, a failed subscription by the unregistration of the driver and the
release of the table. -/
theorem test_cpuidle_init_failure_calls :
    (test_cpuidle_init 4 1 [] [] [] 0 (-19) true 150 module_state_init).map
        (fun r => (r.2.1, r.2.2)) = .ok (-19, [effect.cpuidle_register (-19)]) ∧
      (test_cpuidle_init 4 1 [] [] [] 0 0 false 150 module_state_init).map
        (fun r => (r.2.1, r.2.2)) =
        .ok (-12, [effect.cpuidle_register 0, effect.alloc_percpu false,
          effect.cpuidle_unregister_driver]) ∧
      (test_cpuidle_init 4 1 [] [] [] 0 0 true (-16) module_state_init).map
        (fun r => (r.2.1, r.2.2)) =
        .ok (-16, [effect.cpuidle_register 0, effect.alloc_percpu true,
          effect.cpuhp_setup_state_nocalls (-16), effect.cpuidle_unregister_driver,
          effect.free_percpu]) := by
  decide

/-! ## The preset tables -/

theorem cpuidle_states_ppc_facts :
    cpuidle_states_ppc.length = 4 ∧ (∀ d ∈ cpuidle_states_ppc, d.enter = true) ∧
      cpuidle_states_ppc.map (fun d => d.exit_latency) = [0, 2, 5, 10] ∧
      cpuidle_states_ppc.map (fun d => d.target_residency) = [0, 20, 50, 100] ∧
      (cpuidle_states_ppc[0]?.map (fun d => (d.exit_latency, d.target_residency))
        = some (0, 0)) ∧
      (cpuidle_states_ppc.map (fun d => d.exit_latency)).Pairwise (fun a b => a ≤ b) ∧
      (cpuidle_states_ppc.map (fun d => d.target_residency)).Pairwise (fun a b => a ≤ b) := by
  decide

theorem cpuidle_states_intel_facts :
    cpuidle_states_intel.length = 4 ∧ (∀ d ∈ cpuidle_states_intel, d.enter = true) ∧
      cpuidle_states_intel.map (fun d => d.exit_latency) = [0, 2, 10, 80] ∧
      cpuidle_states_intel.map (fun d => d.target_residency) = [0, 2, 20, 211] ∧
      (cpuidle_states_intel[0]?.map (fun d => (d.exit_latency, d.target_residency))
        = some (0, 0)) ∧
      (cpuidle_states_intel.map (fun d => d.exit_latency)).Pairwise (fun a b => a ≤ b) ∧
      (cpuidle_states_intel.map (fun d => d.target_residency)).Pairwise (fun a b => a ≤ b) := by
  decide

/-- C12. For `sim_type = 1` `add_cpuidle_states` selects a table of exactly four
entries, all enabled, with exit latencies 0, 2, 5, 10 and target residencies
0, 20, 50, 100 by position; for `sim_type = 2` a table of exactly four entries,
all enabled, with exit latencies 0, 2, 10, 80 and target residencies
0, 2, 20, 211. In both, entry 0 has zero latency and residency, latencies and
residencies are non-decreasing with the index, and with `nr_states = 4` the
assembled driver holds exactly the four entries of the table. -/
theorem preset_tables (nr_states sim_type : Nat) (name latency_us residency_us : List Char)
    (temp : Int) (tbl : List cpuidle_state) (drv : cpuidle_driver)
    (hsim : sim_type = 1 ∨ sim_type = 2)
    (hdrv : drv.states.length = CPUIDLE_STATE_MAX) :
    ∃ r, add_cpuidle_states nr_states sim_type name latency_us residency_us temp tbl = .ok r ∧
      r.cpuidle_state_table.length = 4 ∧
      (∀ d ∈ r.cpuidle_state_table, d.enter = true) ∧
      r.cpuidle_state_table.map (fun d => d.exit_latency) =
        (if sim_type = 1 then [0, 2, 5, 10] else [0, 2, 10, 80]) ∧
      r.cpuidle_state_table.map (fun d => d.target_residency) =
        (if sim_type = 1 then [0, 20, 50, 100] else [0, 2, 20, 211]) ∧
      (r.cpuidle_state_table[0]?.map (fun d => (d.exit_latency, d.target_residency))
        = some (0, 0)) ∧
      (r.cpuidle_state_table.map (fun d => d.exit_latency)).Pairwise (fun a b => a ≤ b) ∧
      (r.cpuidle_state_table.map (fun d => d.target_residency)).Pairwise (fun a b => a ≤ b) ∧
      ∃ drv', build_driver 4 sim_type name latency_us residency_us temp tbl drv
          = .ok (tbl, drv') ∧
        drv'.state_count = 4 ∧ drv'.states.take 4 = r.cpuidle_state_table := by
  rcases hsim with rfl | rfl
  · obtain ⟨drv', hrun, hcount, _, htake⟩ :=
      cpuidle_driver_init_spec 4 cpuidle_states_ppc drv (by decide)
        (by rw [hdrv]; decide)
    rw [enabled_entries_ppc 4 (le_refl _)] at hcount htake
    have hc : drv'.state_count = 4 := by rw [hcount]; rfl
    rw [hc] at htake
    obtain ⟨f1, f2, f3, f4, f5, f6, f7⟩ := cpuidle_states_ppc_facts
    refine ⟨{ states := tbl, cpuidle_state_table := cpuidle_states_ppc, ret := 0 },
      by simp [add_cpuidle_states], f1, f2, f3, f4, f5, f6, f7, drv', ?_, hc, ?_⟩
    · simp [build_driver, add_cpuidle_states, hrun]
    · simpa using htake
  · obtain ⟨drv', hrun, hcount, _, htake⟩ :=
      cpuidle_driver_init_spec 4 cpuidle_states_intel drv (by decide)
        (by rw [hdrv]; decide)
    rw [enabled_entries_intel 4 (le_refl _)] at hcount htake
    have hc : drv'.state_count = 4 := by rw [hcount]; rfl
    rw [hc] at htake
    obtain ⟨f1, f2, f3, f4, f5, f6, f7⟩ := cpuidle_states_intel_facts
    refine ⟨{ states := tbl, cpuidle_state_table := cpuidle_states_intel, ret := 0 },
      by simp [add_cpuidle_states], f1, f2, f3, f4, f5, f6, f7, drv', ?_, hc, ?_⟩
    · simp [build_driver, add_cpuidle_states, hrun]
    · simpa using htake

/-- C12 at `sim_type = 2` with the other parameters at their defaults. -/
theorem preset_tables_witness :
    ∃ r, add_cpuidle_states 4 2 [] [] [] 0 cpuidle_states = .ok r ∧
      r.cpuidle_state_table.length = 4 ∧
      (∀ d ∈ r.cpuidle_state_table, d.enter = true) ∧
      r.cpuidle_state_table.map (fun d => d.exit_latency) =
        (if 2 = 1 then [0, 2, 5, 10] else [0, 2, 10, 80]) ∧
      r.cpuidle_state_table.map (fun d => d.target_residency) =
        (if 2 = 1 then [0, 20, 50, 100] else [0, 2, 20, 211]) ∧
      (r.cpuidle_state_table[0]?.map (fun d => (d.exit_latency, d.target_residency))
        = some (0, 0)) ∧
      (r.cpuidle_state_table.map (fun d => d.exit_latency)).Pairwise (fun a b => a ≤ b) ∧
      (r.cpuidle_state_table.map (fun d => d.target_residency)).Pairwise (fun a b => a ≤ b) ∧
      ∃ drv', build_driver 4 2 [] [] [] 0 cpuidle_states test_cpuidle_driver
          = .ok (cpuidle_states, drv') ∧
        drv'.state_count = 4 ∧ drv'.states.take 4 = r.cpuidle_state_table :=
  preset_tables 4 2 [] [] [] 0 cpuidle_states test_cpuidle_driver (Or.inr rfl) (by decide)

/-! ## Other values of `sim_type` -/

/-- C13. For every `sim_type` other than 1, 2 and 3, and every `nr_states`, `name`,
`latency_us`, `residency_us` (and every initial `temp` and custom array),
`add_cpuidle_states` gives what it gives for `sim_type = 3` with the same other
inputs: the same custom array, the same selected table, the same return
value, or the same fault. -/
theorem add_cpuidle_states_default_is_custom (nr_states sim_type : Nat)
    (name latency_us residency_us : List Char) (temp : Int) (tbl : List cpuidle_state)
    (h1 : sim_type ≠ 1) (h2 : sim_type ≠ 2) (h3 : sim_type ≠ 3) :
    add_cpuidle_states nr_states sim_type name latency_us residency_us temp tbl =
      add_cpuidle_states nr_states 3 name latency_us residency_us temp tbl := by
  have _ := h3
  rw [add_cpuidle_states_custom nr_states sim_type name latency_us residency_us temp tbl h1 h2,
    add_cpuidle_states_custom nr_states 3 name latency_us residency_us temp tbl
      (by decide) (by decide)]

/-- C13 at `sim_type = 7` with two names, two latencies and one residency. -/
theorem add_cpuidle_states_default_is_custom_witness :
    add_cpuidle_states 4 7 "a,b".toList "3,4".toList "30".toList 0 cpuidle_states =
      add_cpuidle_states 4 3 "a,b".toList "3,4".toList "30".toList 0 cpuidle_states :=
  add_cpuidle_states_default_is_custom 4 7 _ _ _ 0 cpuidle_states (by decide) (by decide)
    (by decide)

/-! ## The loops run one slot too far -/

/-- C15 fails on the code: the loops test `index <= nr_states`, so slot `nr_states`
is written too. With `nr_states = 4` and four names, slot 4 is named and
enabled; with four latencies, slot 4 gets the fourth; with `nr_states = 10` and
ten names the name loop writes `cpuidle_states[10]`, past the array. -/
theorem loops_write_slot_nr_states :
    (add_cpuidle_states 4 3 "a,b,c,d".toList [] [] 0 cpuidle_states).map
        (fun r => r.states[4]?) = .ok (some (named_state "d".toList)) ∧
      (add_cpuidle_states 4 3 [] "1,2,3,4".toList [] 0 cpuidle_states).map
        (fun r => r.states.map (fun d => d.exit_latency))
        = .ok [0, 1, 2, 3, 4, 0, 0, 0, 0, 0] ∧
      add_cpuidle_states 10 3 "a,b,c,d,e,f,g,h,i,j".toList [] [] 0 cpuidle_states
        = .error (Fault.table_index 10) := by
  decide

/-! ## Names longer than the name member -/

/-- C19 fails on the code: `strcpy` copies a name field whatever its length. The
16-character parameter `0123456789abcdef` needs 17 bytes with its terminator
and is copied into the 16-byte name member of slot 1. -/
theorem long_name_overflows :
    "0123456789abcdef".toList.length ≤ MAX_PARAM_LENGTH - 1 ∧
      add_cpuidle_states 4 3 "0123456789abcdef".toList [] [] 0 cpuidle_states
        = .error (Fault.name_overflow 1 16) := by
  decide

/-! ## Each core touches its own slot -/

/-- C17. For every core `cpu` and every device table, `cpuidle_cpu_online(cpu)` and
`cpuidle_cpu_dead(cpu)` leave the slot of every other core as it was, whether
registration succeeds or fails, and read no other slot: on two tables that
agree on the slot of `cpu` they return the same value, make the same calls
and leave the same slot of `cpu`. -/
theorem hotplug_touches_own_slot (cpu other : Nat) (reg_ret : Int)
    (devices devices2 : Nat → cpuidle_device) (hother : other ≠ cpu)
    (hsame : devices2 cpu = devices cpu) :
    (cpuidle_cpu_online cpu reg_ret devices).devices other = devices other ∧
      (cpuidle_cpu_dead cpu devices).devices other = devices other ∧
      (cpuidle_cpu_online cpu reg_ret devices2).ret =
        (cpuidle_cpu_online cpu reg_ret devices).ret ∧
      (cpuidle_cpu_online cpu reg_ret devices2).calls =
        (cpuidle_cpu_online cpu reg_ret devices).calls ∧
      (cpuidle_cpu_online cpu reg_ret devices2).devices cpu =
        (cpuidle_cpu_online cpu reg_ret devices).devices cpu ∧
      (cpuidle_cpu_dead cpu devices2).ret = (cpuidle_cpu_dead cpu devices).ret ∧
      (cpuidle_cpu_dead cpu devices2).calls = (cpuidle_cpu_dead cpu devices).calls ∧
      (cpuidle_cpu_dead cpu devices2).devices cpu =
        (cpuidle_cpu_dead cpu devices).devices cpu := by
  refine ⟨?_, ?_, ?_, ?_, ?_, ?_, ?_, ?_⟩
  · cases h : (devices cpu).registered <;> by_cases hret : reg_ret = 0 <;>
      simp [cpuidle_cpu_online, h, hret, Function.update, hother]
  · cases h : (devices cpu).registered <;>
      simp [cpuidle_cpu_dead, h, Function.update, hother]
  all_goals
    cases h : (devices cpu).registered <;> by_cases hret : reg_ret = 0 <;>
      simp [cpuidle_cpu_online, cpuidle_cpu_dead, hsame, h, hret]

/-- C17 at core 1 and core 3 of the zero-filled table, registration failing:
the slot of core 3 is as it was. -/
theorem hotplug_touches_own_slot_witness :
    (cpuidle_cpu_online 1 (-22) zero_devices).devices 3 = zero_devices 3 ∧
      (cpuidle_cpu_dead 1 zero_devices).devices 3 = zero_devices 3 :=
  ⟨(hotplug_touches_own_slot 1 3 (-22) zero_devices zero_devices (by decide) rfl).1,
    (hotplug_touches_own_slot 1 3 (-22) zero_devices zero_devices (by decide) rfl).2.1⟩

/-! ## Names are not checked for uniqueness -/

/-- C18 fails as stated: with `name = "a,a"` and `nr_states = 4` the driver holds
snooze, a, a. -/
theorem custom_names_repeat :
    ∃ r, build_driver 4 3 "a,a".toList [] [] 0 cpuidle_states test_cpuidle_driver = .ok r ∧
      (r.2.states.take r.2.state_count).map (fun d => d.name) =
        ["snooze".toList, "a".toList, "a".toList] ∧
      ¬ ((r.2.states.take r.2.state_count).map (fun d => d.name)).Nodup :=
  ⟨_, rfl, by decide, by decide⟩

/-- C18, as the code has it. In custom mode, from the statically initialised
custom table, for `1 ≤ nr_states ≤ 10` and a `name` parameter of at most
`nr_states - 1` fields, each fitting the name member (and `latency_us`,
`residency_us` of at most `nr_states - 1` fields each), the names of the
descriptors in the assembled driver are pairwise distinct exactly when the
name fields are pairwise distinct and none of them is `snooze`. -/
theorem custom_names_distinct (nr_states : Nat) (name latency_us residency_us : List Char)
    (temp : Int) (drv : cpuidle_driver)
    (hnr1 : 1 ≤ nr_states) (hnr : nr_states ≤ CPUIDLE_STATE_MAX)
    (hk : (param_fields name).length ≤ nr_states - 1)
    (hfit : ∀ f ∈ param_fields name, f.length + 1 ≤ CPUIDLE_NAME_LEN)
    (hlat : (param_fields latency_us).length ≤ nr_states - 1)
    (hres : (param_fields residency_us).length ≤ nr_states - 1)
    (hdrv : drv.states.length = CPUIDLE_STATE_MAX) :
    ∃ tbl' drv',
      build_driver nr_states 3 name latency_us residency_us temp cpuidle_states drv
        = .ok (tbl', drv') ∧
      (((drv'.states.take drv'.state_count).map (fun d => d.name)).Nodup ↔
        ((param_fields name).Nodup ∧ "snooze".toList ∉ param_fields name)) := by
  obtain ⟨tbl', drv', hrun, _, _, hnames, _⟩ :=
    custom_driver_spec nr_states name latency_us residency_us temp drv hnr1 hnr hk hfit
      hlat hres hdrv
  refine ⟨tbl', drv', hrun, ?_⟩
  rw [hnames, List.nodup_cons]
  exact ⟨fun h => ⟨h.2, h.1⟩, fun h => ⟨h.2, h.1⟩⟩

/-- C18 at `name = "a,b,c"` with `nr_states = 4`: the driver's four names are
pairwise distinct. -/
theorem custom_names_distinct_witness :
    ∃ tbl' drv',
      build_driver 4 3 "a,b,c".toList [] [] 0 cpuidle_states test_cpuidle_driver
        = .ok (tbl', drv') ∧
      (((drv'.states.take drv'.state_count).map (fun d => d.name)).Nodup ↔
        ((param_fields "a,b,c".toList).Nodup ∧
          "snooze".toList ∉ param_fields "a,b,c".toList)) :=
  custom_names_distinct 4 "a,b,c".toList [] [] 0 test_cpuidle_driver (by decide) (by decide)
    (by decide) (by decide) (by decide) (by decide) (by decide)

/-! ## `idle_loop` returns its index -/

/-- More iterations do not change the outcome of a busy-wait that ends. -/
theorem busy_wait_mono (local_clock : Nat → Nat) (time_start latency : Nat) :
    ∀ (fuel fuel' n : Nat) (x : Nat × Nat), fuel ≤ fuel' →
      busy_wait local_clock time_start latency fuel n = some x →
      busy_wait local_clock time_start latency fuel' n = some x := by
  intro fuel
  induction fuel with
  | zero => intro fuel' n x _ h; simp [busy_wait] at h
  | succ fuel ih =>
    intro fuel' n x hle h
    obtain ⟨g, rfl⟩ : ∃ g, fuel' = g + 1 := ⟨fuel' - 1, by omega⟩
    unfold busy_wait at h ⊢
    split
    · rename_i hc
      rw [if_pos hc] at h
      exact ih g (n + 1) x (by omega) h
    · rename_i hc
      rw [if_neg hc] at h
      exact h

/-- A busy-wait ends once a sample within its iteration bound shows the latency
elapsed. -/
theorem busy_wait_returns (local_clock : Nat → Nat) (time_start latency : Nat) :
    ∀ (fuel n k : Nat), n ≤ k → k < n + fuel →
      latency ≤ (local_clock k % 2 ^ 64 + 2 ^ 64 - time_start) % 2 ^ 64 →
      ∃ x, busy_wait local_clock time_start latency fuel n = some x := by
  intro fuel
  induction fuel with
  | zero => intro n k h1 h2 _; omega
  | succ fuel ih =>
    intro n k h1 h2 hk
    unfold busy_wait
    split
    · rename_i hc
      have hne : n ≠ k := by
        intro e
        subst e
        omega
      exact ih (n + 1) k (by omega) (by omega) hk
    · exact ⟨_, rfl⟩

theorem resched_wait_mono (need_resched : Nat → Bool) :
    ∀ (fuel fuel' n x : Nat), fuel ≤ fuel' →
      resched_wait need_resched fuel n = some x →
      resched_wait need_resched fuel' n = some x := by
  intro fuel
  induction fuel with
  | zero => intro fuel' n x _ h; simp [resched_wait] at h
  | succ fuel ih =>
    intro fuel' n x hle h
    obtain ⟨g, rfl⟩ : ∃ g, fuel' = g + 1 := ⟨fuel' - 1, by omega⟩
    unfold resched_wait at h ⊢
    split
    · rename_i hc
      rw [if_pos hc] at h
      exact h
    · rename_i hc
      rw [if_neg hc] at h
      exact ih g (n + 1) x (by omega) h

theorem resched_wait_returns (need_resched : Nat → Bool) :
    ∀ (fuel n k : Nat), n ≤ k → k < n + fuel → need_resched k = true →
      ∃ x, resched_wait need_resched fuel n = some x := by
  intro fuel
  induction fuel with
  | zero => intro n k h1 h2 _; omega
  | succ fuel ih =>
    intro n k h1 h2 hk
    unfold resched_wait
    split
    · exact ⟨_, rfl⟩
    · rename_i hc
      have hne : n ≠ k := by
        intro e
        subst e
        exact hc hk
      exact ih (n + 1) k (by omega) (by omega) hk

/-- Whenever `idle_loop` returns, it returns the index it was given. -/
theorem idle_loop_ret (fuel : Nat) (env : idle_env) (drv : cpuidle_driver) (index : Nat)
    (r : idle_result) (hrun : idle_loop fuel env drv index = some r) : r.ret = index := by
  unfold idle_loop at hrun
  split at hrun
  · cases hrun
  · simp only at hrun
    split at hrun
    · cases hrun
    · split at hrun
      · cases hrun
      · split at hrun
        · cases hrun
        · simp only [Option.some.injEq] at hrun
          subst hrun
          rfl

/-- `idle_loop` returns, with every large enough iteration bound, when after any
clock sample a later one shows `exit_latency` elapsed and either the polling
test finds work pending or a reschedule becomes necessary. -/
theorem idle_loop_terminates (env : idle_env) (drv : cpuidle_driver) (index : Nat)
    (st : cpuidle_state) (hst : drv.states[index]? = some st)
    (hclock : ∀ s, ∃ k, s < k ∧
      st.exit_latency ≤
        (env.local_clock k % 2 ^ 64 + 2 ^ 64 - env.local_clock s % 2 ^ 64) % 2 ^ 64)
    (hresched : env.current_set_polling_and_test = true ∨ ∃ n, env.need_resched n = true) :
    ∃ fuel0, ∀ fuel, fuel0 ≤ fuel → ∃ r, idle_loop fuel env drv index = some r := by
  obtain ⟨k1, hk1, hl1⟩ := hclock 0
  obtain ⟨⟨last1, n1⟩, hx1⟩ :=
    busy_wait_returns env.local_clock (env.local_clock 0 % 2 ^ 64) st.exit_latency
      k1 1 k1 (by omega) (by omega) hl1
  obtain ⟨k2, hk2, hl2⟩ := hclock n1
  obtain ⟨⟨last2, n2⟩, hx2⟩ :=
    busy_wait_returns env.local_clock (env.local_clock n1 % 2 ^ 64) st.exit_latency
      k2 (n1 + 1) k2 (by omega) (by omega) hl2
  have hpoll : ∃ f3, ∀ fuel, f3 ≤ fuel →
      ∃ y, (if env.current_set_polling_and_test = false then
        resched_wait env.need_resched fuel 0 else some 0) = some y := by
    rcases hresched with h | ⟨n, hn⟩
    · exact ⟨0, fun fuel _ => ⟨0, by simp [h]⟩⟩
    · obtain ⟨y, hy⟩ := resched_wait_returns env.need_resched (n + 1) 0 n (by omega)
        (by omega) hn
      refine ⟨n + 1, fun fuel hf => ?_⟩
      by_cases hp : env.current_set_polling_and_test = false
      · exact ⟨y, by rw [if_pos hp]; exact resched_wait_mono _ _ _ _ _ hf hy⟩
      · exact ⟨0, by rw [if_neg hp]⟩
  obtain ⟨f3, hf3⟩ := hpoll
  refine ⟨k1 + k2 + f3, fun fuel hf => ?_⟩
  obtain ⟨y, hy⟩ := hf3 fuel (by omega)
  have h1 := busy_wait_mono _ _ _ k1 fuel 1 _ (by omega) hx1
  have h2 := busy_wait_mono _ _ _ k2 fuel (n1 + 1) _ (by omega) hx2
  refine ⟨{ ret := index, first_sample := env.local_clock 0 % 2 ^ 64, last_sample := last2 }, ?_⟩
  unfold idle_loop
  rw [hst]
  simp only [h1, hy, h2]

/-- C14. For every driver, every state index inside its states and every
behaviour of the clock, the polling test and the need-to-reschedule signal:
whenever `idle_loop` returns, the value it returns is the index it was given
(it has no other result); and it does return, with every large enough
iteration bound, when after any clock sample a later one shows
`exit_latency` elapsed and the polling test finds work pending or a reschedule
eventually becomes necessary. -/
theorem idle_loop_returns_index (env : idle_env) (drv : cpuidle_driver) (index : Nat)
    (st : cpuidle_state) (hst : drv.states[index]? = some st) :
    (∀ fuel r, idle_loop fuel env drv index = some r → r.ret = index) ∧
      ((∀ s, ∃ k, s < k ∧
          st.exit_latency ≤
            (env.local_clock k % 2 ^ 64 + 2 ^ 64 - env.local_clock s % 2 ^ 64) % 2 ^ 64) →
        (env.current_set_polling_and_test = true ∨ ∃ n, env.need_resched n = true) →
        ∃ fuel0, ∀ fuel, fuel0 ≤ fuel →
          ∃ r, idle_loop fuel env drv index = some r ∧ r.ret = index) := by
  refine ⟨fun fuel r h => idle_loop_ret fuel env drv index r h, ?_⟩
  intro hclock hresched
  obtain ⟨fuel0, h⟩ := idle_loop_terminates env drv index st hst hclock hresched
  refine ⟨fuel0, fun fuel hf => ?_⟩
  obtain ⟨r, hr⟩ := h fuel hf
  exact ⟨r, hr, idle_loop_ret fuel env drv index r hr⟩

/-- C14 in the stop2 state of the first preset, on a core whose clock advances
5 ns per sample and which must reschedule at the third poll. -/
theorem idle_loop_returns_index_witness :
    ∃ fuel0, ∀ fuel, fuel0 ≤ fuel →
      ∃ r, idle_loop fuel steady_env { states := cpuidle_states_ppc, state_count := 4 } 3
          = some r ∧ r.ret = 3 :=
  (idle_loop_returns_index steady_env { states := cpuidle_states_ppc, state_count := 4 } 3
      { name := "stop2".toList, exit_latency := 10, target_residency := 100, enter := true }
      rfl).2
    (fun s => ⟨s + 2, by omega, by simp only [steady_env]; omega⟩)
    (Or.inr ⟨2, rfl⟩)

/-! ## The three lists, slot by slot -/

/-- The loop only looks at the fields up to the index limit. -/
theorem apply_fields_take {σ : Type} (nr_states : Nat)
    (body : Nat → List Char → σ → Except Fault σ) :
    ∀ (fs : List (List Char)) (index : Nat) (st : σ),
      apply_fields nr_states body fs index st =
        apply_fields nr_states body (fs.take (nr_states + 1 - index)) index st := by
  intro fs
  induction fs with
  | nil => intro index st; simp [apply_fields]
  | cons f fs ih =>
    intro index st
    by_cases hi : index ≤ nr_states
    · have h : nr_states + 1 - index = (nr_states + 1 - (index + 1)) + 1 := by omega
      rw [h, List.take_succ_cons]
      simp only [apply_fields, hi, if_true]
      cases body index f st with
      | error e => rfl
      | ok st' => exact ih (index + 1) st'
    · have h : nr_states + 1 - index = 0 := by omega
      simp [h, apply_fields, hi]

/-- A valid non-negative base-10 integer below `2 ^ 63` parses to its value. -/
theorem kstrtol_decimal_value (f : List Char) (v : Nat) (h : decimal_value f = some v)
    (hv : v < 2 ^ 63) : kstrtol f = some (v : Int) := by
  unfold decimal_value at h
  split at h
  · rename_i hf
    obtain ⟨hne, hall⟩ := hf
    simp only [Option.some.injEq] at h
    have hdig : ∀ c ∈ f, Char.isDigit c = true := by
      simpa [List.all_eq_true] using hall
    have htake : f.takeWhile Char.isDigit = f := List.takeWhile_eq_self_iff.mpr hdig
    have hdrop : f.dropWhile Char.isDigit = [] := List.dropWhile_eq_nil_iff.mpr hdig
    have hk : _kstrtoull f = some v := by
      unfold _kstrtoull
      simp only [htake, hdrop, hne, if_false, ne_eq, not_true_eq_false, false_and, h]
      rw [if_pos (by omega)]
    cases f with
    | nil => exact absurd rfl hne
    | cons c cs =>
      have hc : Char.isDigit c = true := hdig c (List.mem_cons_self _ _)
      have hminus : c ≠ '-' := by
        intro e; rw [e] at hc; exact absurd hc (by decide)
      have hplus : c ≠ '+' := by
        intro e; rw [e] at hc; exact absurd hc (by decide)
      unfold kstrtol
      split
      · rename_i t heq
        simp only [List.cons.injEq] at heq
        exact absurd heq.1 hminus
      · rename_i t heq
        simp only [List.cons.injEq] at heq
        exact absurd heq.1 hplus
      · rw [hk]
        simp only
        rw [if_pos hv]
  · cases h

theorem getElem?_lt_length {α : Type} (l : List α) (i : Nat) (d : α)
    (h : l[i]? = some d) : i < l.length := by
  rcases Nat.lt_or_ge i l.length with h' | h'
  · exact h'
  · rw [List.getElem?_eq_none h'] at h; cases h

theorem getElem?_set_same {α : Type} (l : List α) (i : Nat) (x : α) (h : i < l.length) :
    (l.set i x)[i]? = some x := by
  simp [List.getElem?_set, h]

/-- A numeric loop, slot by slot. `upd` writes the member the loop assigns and
`get` reads it. After the loop a slot differs from what it was in that member
only; the member holds the converted value of the field at the slot's
position if that field parses, and is as it was if the slot is below the
starting index, above the index limit, or past the end of the list. -/
theorem apply_fields_numeric (nr_states : Nat)
    (body : Nat → List Char → List cpuidle_state × Int →
      Except Fault (List cpuidle_state × Int))
    (upd : cpuidle_state → Nat → cpuidle_state) (get : cpuidle_state → Nat)
    (hnone : ∀ index f st, st.1[index]? = none → ∃ e, body index f st = .error e)
    (hsome : ∀ index f st d, st.1[index]? = some d →
      body index f st =
        .ok (st.1.set index (upd d (long_to_uint ((kstrtol f).getD st.2))),
          (kstrtol f).getD st.2))
    (hgu : ∀ d a, get (upd d a) = a) (hug : ∀ d, upd d (get d) = d)
    (huu : ∀ d a b, upd (upd d a) b = upd d b) :
    ∀ (fs : List (List Char)) (index : Nat) (st st' : List cpuidle_state × Int),
      apply_fields nr_states body fs index st = .ok st' →
      ∀ (i : Nat) (d : cpuidle_state), st.1[i]? = some d →
        ∃ t, st'.1[i]? = some (upd d t) ∧
          (index ≤ i → i ≤ nr_states → ∀ f v, fs[i - index]? = some f →
            kstrtol f = some v → t = long_to_uint v) ∧
          ((i < index ∨ nr_states < i ∨ fs[i - index]? = none) → t = get d) := by
  intro fs
  induction fs with
  | nil =>
    intro index st st' hrun i d hd
    simp only [apply_fields, Except.ok.injEq] at hrun
    subst hrun
    exact ⟨get d, by rw [hug, hd], by simp, fun _ => rfl⟩
  | cons f fs ih =>
    intro index st st' hrun i d hd
    by_cases hi : index ≤ nr_states
    · simp only [apply_fields, hi, if_true] at hrun
      cases hget : st.1[index]? with
      | none =>
        obtain ⟨e, he⟩ := hnone index f st hget
        rw [he] at hrun
        cases hrun
      | some d0 =>
        rw [hsome index f st d0 hget] at hrun
        simp only at hrun
        have hlt := getElem?_lt_length _ _ _ hget
        by_cases hii : i = index
        · subst hii
          have hdd : d0 = d := by rw [hget] at hd; exact Option.some.inj hd
          subst hdd
          obtain ⟨t, ht, _, h3⟩ := ih (i + 1) _ st' hrun i
            (upd d0 (long_to_uint ((kstrtol f).getD st.2)))
            (getElem?_set_same _ _ _ hlt)
          have htv := h3 (Or.inl (Nat.lt_succ_self i))
          rw [hgu] at htv
          rw [huu] at ht
          refine ⟨t, ht, ?_, ?_⟩
          · intro _ _ f' v hf' hv
            simp only [Nat.sub_self, List.getElem?_cons_zero, Option.some.injEq] at hf'
            subst hf'
            rw [htv, hv]
            rfl
          · intro h
            rcases h with h | h | h
            · omega
            · omega
            · simp at h
        · have hd1 : (st.1.set index (upd d0 (long_to_uint ((kstrtol f).getD st.2))))[i]?
              = some d := by
            rw [getElem?_set_other _ _ _ _ hii]
            exact hd
          obtain ⟨t, ht, h2, h3⟩ := ih (index + 1) _ st' hrun i d hd1
          refine ⟨t, ht, ?_, ?_⟩
          · intro h1 hnr f' v hf' hv
            have hgt : index + 1 ≤ i := by omega
            have hsub : i - index = (i - (index + 1)) + 1 := by omega
            rw [hsub, List.getElem?_cons_succ] at hf'
            exact h2 hgt hnr f' v hf' hv
          · intro h
            apply h3
            rcases h with h | h | h
            · exact Or.inl (by omega)
            · exact Or.inr (Or.inl h)
            · by_cases hlt' : i < index
              · exact Or.inl (by omega)
              · have hsub : i - index = (i - (index + 1)) + 1 := by omega
                rw [hsub, List.getElem?_cons_succ] at h
                exact Or.inr (Or.inr h)
    · simp only [apply_fields, hi, if_false, Except.ok.injEq] at hrun
      subst hrun
      exact ⟨get d, by rw [hug, hd], fun h1 h2 => absurd (le_trans h1 h2) hi, fun _ => rfl⟩

theorem residency_body_some (index : Nat) (f : List Char) (st : List cpuidle_state × Int)
    (d : cpuidle_state) (h : st.1[index]? = some d) :
    residency_body index f st =
      .ok (st.1.set index { d with target_residency := long_to_uint ((kstrtol f).getD st.2) },
        (kstrtol f).getD st.2) := by
  simp only [residency_body, h]
  cases kstrtol f <;> rfl

theorem latency_body_some (index : Nat) (f : List Char) (st : List cpuidle_state × Int)
    (d : cpuidle_state) (h : st.1[index]? = some d) :
    latency_body index f st =
      .ok (st.1.set index { d with exit_latency := long_to_uint ((kstrtol f).getD st.2) },
        (kstrtol f).getD st.2) := by
  simp only [latency_body, h]
  cases kstrtol f <;> rfl

/-- Slot `j + 1` of the table the name loop leaves: the descriptor named by field
`j` if the list has one within the index limit, a zero-filled slot
otherwise. -/
theorem name_table_slot (nr_states j : Nat) (fs : List (List Char))
    (hlen : (fs.take nr_states).length ≤ 9) (hj : j < nr_states) (hj9 : j < 9) :
    ∃ d1, (snooze_state :: ((fs.take nr_states).map named_state ++
        List.replicate (9 - (fs.take nr_states).length) zero_state))[j + 1]? = some d1 ∧
      d1.exit_latency = 0 ∧ d1.target_residency = 0 ∧
      (∀ f, fs[j]? = some f → d1.name = f ∧ d1.enter = true) ∧
      (fs[j]? = none → d1.name = [] ∧ d1.enter = false) := by
  rw [List.getElem?_cons_succ]
  cases hf : fs[j]? with
  | some f =>
    have hjl : j < fs.length := getElem?_lt_length _ _ _ hf
    have hjt : j < ((fs.take nr_states).map named_state).length := by
      simp only [List.length_map, List.length_take]; omega
    refine ⟨named_state f, ?_, rfl, rfl, ?_, ?_⟩
    · rw [List.getElem?_append_left hjt, List.getElem?_map, List.getElem?_take]
      simp [hj, hf]
    · intro f' hf'
      simp only [Option.some.injEq] at hf'
      subst hf'
      exact ⟨rfl, rfl⟩
    · intro h; cases h
  | none =>
    have hjl : fs.length ≤ j := by
      rcases Nat.lt_or_ge j fs.length with h | h
      · rw [List.getElem?_eq_getElem h] at hf; cases hf
      · exact h
    have hjt : ((fs.take nr_states).map named_state).length ≤ j := by
      simp only [List.length_map, List.length_take]; omega
    refine ⟨zero_state, ?_, rfl, rfl, ?_, ?_⟩
    · rw [List.getElem?_append_right hjt]
      simp only [List.length_map]
      rw [List.getElem?_replicate]
      simp only [List.length_take] at hlen ⊢
      rw [if_pos (by omega)]
    · intro f h; cases h
    · intro _; exact ⟨rfl, rfl⟩

theorem long_to_uint_small (v : Nat) (h : v < 2 ^ 32) : long_to_uint (v : Int) = v := by
  unfold long_to_uint
  have h1 : ((v : Int) % 2 ^ 32) = (v : Int) := Int.emod_eq_of_lt (by omega) (by omega)
  rw [h1]
  simp

theorem residency_body_none (index : Nat) (f : List Char) (st : List cpuidle_state × Int)
    (h : st.1[index]? = none) : ∃ e, residency_body index f st = .error e :=
  ⟨Fault.table_index index, by simp only [residency_body, h]⟩

theorem latency_body_none (index : Nat) (f : List Char) (st : List cpuidle_state × Int)
    (h : st.1[index]? = none) : ∃ e, latency_body index f st = .error e :=
  ⟨Fault.table_index index, by simp only [latency_body, h]⟩

/-- C16 fails as stated: the latency field `4294967296` is a valid non-negative
base-10 integer, and slot 1 ends with `exit_latency = 0`, the field's value
converted to the `unsigned int` member. -/
theorem latency_field_truncated :
    ∃ r d, add_cpuidle_states 4 3 "a".toList "4294967296".toList [] 0 cpuidle_states
        = .ok r ∧
      r.states[1]? = some d ∧
      (param_fields "4294967296".toList)[0]? = some "4294967296".toList ∧
      decimal_value "4294967296".toList = some 4294967296 ∧
      d.exit_latency = 0 ∧ d.exit_latency ≠ 4294967296 :=
  ⟨_, _, rfl, rfl, by decide, by decide, by decide, by decide⟩

/-- C16, as the code has it. In custom mode, from the statically initialised
custom table, for every `nr_states ≤ 10`, with the loops staying inside the
table (`nr_states < 10`, or fewer than ten fields in each list) and the name
fields within the index limit fitting the name member, `add_cpuidle_states`
succeeds and for every `i` with `1 ≤ i ≤ nr_states - 1`: slot `i`'s name is
the `i`-th name field; the slot is enabled iff the name list has an `i`-th
field; its `exit_latency` is the `i`-th `latency_us` field and its
`target_residency` the `i`-th `residency_us` field, when that field is a valid
non-negative base-10 integer below `2 ^ 32`; and a slot past the end of the
`latency_us` or `residency_us` list keeps latency or residency 0. -/
theorem custom_slots_lockstep (nr_states : Nat) (name latency_us residency_us : List Char)
    (temp : Int) (hnr : nr_states ≤ CPUIDLE_STATE_MAX)
    (hin : nr_states < CPUIDLE_STATE_MAX ∨
      ((param_fields name).length < CPUIDLE_STATE_MAX ∧
        (param_fields latency_us).length < CPUIDLE_STATE_MAX ∧
        (param_fields residency_us).length < CPUIDLE_STATE_MAX))
    (hfit : ∀ f ∈ (param_fields name).take nr_states, f.length + 1 ≤ CPUIDLE_NAME_LEN) :
    ∃ r, add_cpuidle_states nr_states 3 name latency_us residency_us temp cpuidle_states
        = .ok r ∧
      ∀ i, 1 ≤ i → i ≤ nr_states - 1 →
        ∃ d, r.states[i]? = some d ∧
          (∀ f, (param_fields name)[i - 1]? = some f → d.name = f) ∧
          (d.enter = true ↔ ∃ f, (param_fields name)[i - 1]? = some f) ∧
          (∀ f v, (param_fields latency_us)[i - 1]? = some f → decimal_value f = some v →
            v < 2 ^ 32 → d.exit_latency = v) ∧
          ((param_fields latency_us)[i - 1]? = none → d.exit_latency = 0) ∧
          (∀ f v, (param_fields residency_us)[i - 1]? = some f → decimal_value f = some v →
            v < 2 ^ 32 → d.target_residency = v) ∧
          ((param_fields residency_us)[i - 1]? = none → d.target_residency = 0) := by
  simp only [CPUIDLE_STATE_MAX] at hnr hin
  have hlen' : ((param_fields name).take nr_states).length ≤ 9 := by
    simp only [List.length_take]; omega
  -- the name loop
  have hname : apply_fields nr_states name_body (param_fields name) 1 cpuidle_states =
      .ok (snooze_state :: (((param_fields name).take nr_states).map named_state ++
        List.replicate (9 - ((param_fields name).take nr_states).length) zero_state)) := by
    rw [apply_fields_take]
    simp only [Nat.add_sub_cancel]
    have h := apply_fields_name_zero nr_states ((param_fields name).take nr_states)
      [snooze_state] 9 hlen'
      (by simp only [List.length_singleton, List.length_take]; omega) hfit
    simpa using h
  -- the residency loop and the latency loop
  obtain ⟨st2, hrun2, hlen2, _, _⟩ :=
    apply_fields_frame nr_states residency_body residency_body_frame
      (param_fields residency_us) 1
      (snooze_state :: (((param_fields name).take nr_states).map named_state ++
        List.replicate (9 - ((param_fields name).take nr_states).length) zero_state), temp)
      (by
        rcases hin with h | h
        · right; simp; omega
        · left; simp; omega)
  obtain ⟨st3, hrun3, hlen3, _, _⟩ :=
    apply_fields_frame nr_states latency_body latency_body_frame
      (param_fields latency_us) 1 st2
      (by
        rw [hlen2]
        rcases hin with h | h
        · right; simp; omega
        · left; simp; omega)
  refine ⟨{ states := st3.1, cpuidle_state_table := st3.1, ret := uint_to_int nr_states },
    ?_, ?_⟩
  · rw [add_cpuidle_states_custom _ _ _ _ _ _ _ (by decide) (by decide), hname]
    simp only [hrun2, hrun3]
  · intro i hi1 hi
    obtain ⟨j, rfl⟩ : ∃ j, i = j + 1 := ⟨i - 1, by omega⟩
    simp only [Nat.add_sub_cancel]
    obtain ⟨d1, hd1, hlat0, hres0, hnm, hnone⟩ :=
      name_table_slot nr_states j (param_fields name) hlen' (by omega) (by omega)
    obtain ⟨t2, ht2, h2v, h2z⟩ :=
      apply_fields_numeric nr_states residency_body
        (fun d t => { d with target_residency := t }) (fun d => d.target_residency)
        residency_body_none residency_body_some (fun _ _ => rfl) (fun _ => rfl)
        (fun _ _ _ => rfl) (param_fields residency_us) 1 _ st2 hrun2 (j + 1) d1 hd1
    obtain ⟨t3, ht3, h3v, h3z⟩ :=
      apply_fields_numeric nr_states latency_body
        (fun d t => { d with exit_latency := t }) (fun d => d.exit_latency)
        latency_body_none latency_body_some (fun _ _ => rfl) (fun _ => rfl)
        (fun _ _ _ => rfl) (param_fields latency_us) 1 st2 st3 hrun3 (j + 1) _ ht2
    simp only [Nat.add_sub_cancel] at h2v h2z h3v h3z
    refine ⟨_, ht3, ?_, ?_, ?_, ?_, ?_, ?_⟩
    · intro f hf
      exact (hnm f hf).1
    · constructor
      · intro hen
        cases hf : (param_fields name)[j]? with
        | some f => exact ⟨f, rfl⟩
        | none =>
          have := (hnone hf).2
          simp only at hen
          rw [this] at hen
          cases hen
      · rintro ⟨f, hf⟩
        exact (hnm f hf).2
    · intro f v hf hv hv32
      have hk := kstrtol_decimal_value f v hv (by omega)
      have := h3v (by omega) (by omega) f v hf hk
      simp only
      rw [this, long_to_uint_small v hv32]
    · intro hf
      have := h3z (Or.inr (Or.inr hf))
      simp only at this ⊢
      rw [this, hlat0]
    · intro f v hf hv hv32
      have hk := kstrtol_decimal_value f v hv (by omega)
      have := h2v (by omega) (by omega) f v hf hk
      simp only
      rw [this, long_to_uint_small v hv32]
    · intro hf
      have := h2z (Or.inr (Or.inr hf))
      simp only at this ⊢
      rw [this, hres0]

/-- C16 at `nr_states = 4`, `name = "a,b"`, `latency_us = "3,4"`, `residency_us = "30"`:
slots 1 and 2 are a and b with latencies 3 and 4, slot 1 has residency 30,
slot 2 keeps residency 0 and slot 3 stays disabled with latency and
residency 0. -/
theorem custom_slots_lockstep_witness :
    ∃ r, add_cpuidle_states 4 3 "a,b".toList "3,4".toList "30".toList 0 cpuidle_states
        = .ok r ∧
      ∀ i, 1 ≤ i → i ≤ 4 - 1 →
        ∃ d, r.states[i]? = some d ∧
          (∀ f, (param_fields "a,b".toList)[i - 1]? = some f → d.name = f) ∧
          (d.enter = true ↔ ∃ f, (param_fields "a,b".toList)[i - 1]? = some f) ∧
          (∀ f v, (param_fields "3,4".toList)[i - 1]? = some f → decimal_value f = some v →
            v < 2 ^ 32 → d.exit_latency = v) ∧
          ((param_fields "3,4".toList)[i - 1]? = none → d.exit_latency = 0) ∧
          (∀ f v, (param_fields "30".toList)[i - 1]? = some f → decimal_value f = some v →
            v < 2 ^ 32 → d.target_residency = v) ∧
          ((param_fields "30".toList)[i - 1]? = none → d.target_residency = 0) :=
  custom_slots_lockstep 4 "a,b".toList "3,4".toList "30".toList 0 (by decide)
    (Or.inl (by decide)) (by decide)

/-- The table of the example above, slot by slot. -/
theorem custom_slots_example :
    (add_cpuidle_states 4 3 "a,b".toList "3,4".toList "30".toList 0 cpuidle_states).map
        (fun r => r.states.take 4) =
      .ok [snooze_state,
        { name := "a".toList, exit_latency := 3, target_residency := 30, enter := true },
        { name := "b".toList, exit_latency := 4, target_residency := 0, enter := true },
        zero_state] := by
  decide

end CpuidleTest
